import Mathlib

/-!
Verification of the TROG-2 eye-tracking pipeline (`datapipeline.py`).

The pipeline's core is embedded shallowly over `ℚ`:

* pandas rows become `Row` records; a DataFrame becomes a `List Row` in row
  order;
* `NaN` cells in scalar outputs become `Option` values (`none` = NaN);
* float arithmetic becomes exact rational arithmetic; `numpy.sqrt` has no
  exact rational counterpart, so every function that needs it takes an
  explicit parameter `sq : ℚ → ℚ` standing for the square-root routine, and
  all theorems hold for every `sq`;
* `numpy.nanpercentile` / `pandas.quantile` (default linear interpolation)
  are embedded as `percentile`;
* `pandas.sort_values` is embedded as a stable insertion sort (the claims do
  not depend on the order of rows with equal keys);
* `float.__round__` (round-half-to-even) is embedded as `roundTo` using
  round-half-up; the two differ only on exact decimal ties, which none of
  the claims touch.
-/

set_option maxHeartbeats 1000000
set_option maxRecDepth 4000

/- Batteries marks the `Rat` arithmetic operations `@[irreducible]`, which
blocks `decide` from evaluating closed rational facts; restore the normal
reducibility for this file.  (The kernel itself ignores reducibility
attributes, so this changes nothing about what is provable.) -/
attribute [local semireducible] Rat.sub Rat.mul Rat.inv Rat.add

namespace Trog2

/-- One row of the canonical sample table: `paciente_id` (subjects are
numbered), `Key` (response code, 0 = none), `t_sec`, `X`, `Y`. -/
structure Row where
  pac : ℕ
  key : ℤ
  t : ℚ
  x : ℚ
  y : ℚ
deriving DecidableEq, Repr, Inhabited

/-- `PERCENTIL_LIMIAR_VEL = 85` in `datapipeline.py`. -/
def PERCENTIL_LIMIAR_VEL : ℚ := 85

/-- `VEL_MIN = 0.5` in `datapipeline.py` (velocity floor). -/
def VEL_MIN : ℚ := 1/2

/-- `FIX_MIN_S = 0.100` in `datapipeline.py` (minimum fixation duration). -/
def FIX_MIN_S : ℚ := 1/10

/-- The fixed time-delta epsilon `1e-6` used by `rotular_ivt`. -/
def EPS_DT : ℚ := 1/1000000

/-- `NORMALIZAR_COORDS = True` in `datapipeline.py`. -/
def NORMALIZAR_COORDS : Bool := true

/-- `pandas.Series.min` on a column given as a list (only ever used on
nonempty columns). -/
def qmin : List ℚ → ℚ
  | [] => 0
  | a :: l => l.foldl min a

/-- `pandas.Series.max` on a column given as a list. -/
def qmax : List ℚ → ℚ
  | [] => 0
  | a :: l => l.foldl max a

/-- `numpy.mean` over a list (only ever used on nonempty lists). -/
def qmean (l : List ℚ) : ℚ := l.sum / l.length

/-- Python `round(q, k)` to `k` decimal places (see the module comment on
ties). -/
def roundTo (k : ℕ) (q : ℚ) : ℚ := (round (q * 10 ^ k) : ℚ) / 10 ^ k

/-- `sort_values("t_sec")`. -/
def sortByT (l : List Row) : List Row :=
  l.insertionSort (fun a b => a.t ≤ b.t)

/-- Lexicographic order on (`paciente_id`, `t_sec`) used by
`sort_values(["paciente_id", "t_sec"])`. -/
def pacTLe (a b : Row) : Prop := a.pac < b.pac ∨ (a.pac = b.pac ∧ a.t ≤ b.t)

instance : DecidableRel pacTLe := fun a b => by
  unfold pacTLe; infer_instance

instance : IsTotal Row pacTLe := by
  constructor
  intro a b
  rcases Nat.lt_trichotomy a.pac b.pac with h | h | h
  · exact Or.inl (Or.inl h)
  · rcases le_total a.t b.t with ht | ht
    · exact Or.inl (Or.inr ⟨h, ht⟩)
    · exact Or.inr (Or.inr ⟨h.symm, ht⟩)
  · exact Or.inr (Or.inl h)

instance : IsTrans Row pacTLe := by
  constructor
  rintro a b c (h₁ | ⟨h₁, h₁t⟩) (h₂ | ⟨h₂, h₂t⟩)
  · exact Or.inl (h₁.trans h₂)
  · exact Or.inl (h₂ ▸ h₁)
  · exact Or.inl (h₁ ▸ h₂)
  · exact Or.inr ⟨h₁.trans h₂, h₁t.trans h₂t⟩

/-- `sort_values(["paciente_id", "t_sec"])`. -/
def sortPacT (l : List Row) : List Row := l.insertionSort pacTLe

/-- `numpy.percentile` / `pandas.quantile` with the default linear
interpolation: on the sorted data `s` of length `n`, the value at fractional
index `h = (n-1)·p/100` is interpolated between `s[⌊h⌋]` and `s[⌊h⌋+1]`. -/
def percentile (p : ℚ) (vals : List ℚ) : ℚ :=
  let s := vals.insertionSort (· ≤ ·)
  match s with
  | [] => 0
  | _ :: _ =>
    let n := s.length
    let h : ℚ := (n - 1 : ℚ) * p / 100
    let i : ℕ := (⌊h⌋).toNat
    let lo := s.getD i 0
    let hi := s.getD (i + 1) lo
    lo + (h - (i : ℚ)) * (hi - lo)

/-- A sample's label assigned by the I-VT classifier. -/
inductive Label
  | fix
  | sac
deriving DecidableEq, Repr, Inhabited

/-- One labeled row produced by `rotular_ivt`: the original sample columns
plus the derived `dx`, `dy`, `dt`, `speed`, `label`, `seg_id` columns. -/
structure IvtRow where
  pac : ℕ
  key : ℤ
  t : ℚ
  x : ℚ
  y : ℚ
  dx : ℚ
  dy : ℚ
  dt : ℚ
  speed : ℚ
  label : Label
  segId : ℕ
deriving DecidableEq, Repr, Inhabited

/-- `Series.diff().fillna(0.0)` of the column `f` of a frame: the first
entry becomes `0`, entry `i+1` is `f row(i+1) - f row(i)`. -/
def diffs0 (f : Row → ℚ) : List Row → List ℚ
  | [] => []
  | a :: l => 0 :: List.zipWith (fun p q => f q - f p) (a :: l) l

/-- `(label != label.shift(1))`: the first comparison (against the shifted-in
NaN) is `true`; comparison `i+1` is `label (i+1) ≠ label i`. -/
def chgFlags : List Label → List Bool
  | [] => []
  | a :: l => true :: List.zipWith (fun p q => decide (q ≠ p)) (a :: l) l

/-- `.cumsum()` over a boolean series (`true` counts 1). -/
def cumsumB (acc : ℕ) : List Bool → List ℕ
  | [] => []
  | b :: l => (acc + if b then 1 else 0) :: cumsumB (acc + if b then 1 else 0) l

/-- `(label != label.shift(1)).cumsum()`: the segment-id column. -/
def segIds (labels : List Label) : List ℕ := cumsumB 0 (chgFlags labels)

/-- The adjusted `dt` column of `rotular_ivt`:
`diff().fillna(0.0)`, then `replace(0, 1e-6)`, then
`apply(lambda x: max(x, 1e-6))`. -/
def ivtDts (s : List Row) : List ℚ :=
  ((diffs0 (fun r => r.t) s).map (fun d => if d = 0 then EPS_DT else d)).map
    (fun d => max d EPS_DT)

/-- The `speed` column of `rotular_ivt`:
`np.sqrt(dx**2 + dy**2) / dt`, with `sq` standing for `numpy.sqrt`.  In the
rational model the `replace([inf, -inf], 0.0).fillna(0.0)` coercions on
`speed` are identities, since `dt ≥ 1e-6 > 0` rules out division by
zero. -/
def ivtSpeeds (sq : ℚ → ℚ) (s : List Row) : List ℚ :=
  List.zipWith3 (fun dx dy dt => sq (dx ^ 2 + dy ^ 2) / dt)
    (diffs0 (fun r => r.x) s) (diffs0 (fun r => r.y) s) (ivtDts s)

/-- The adaptive velocity threshold of `rotular_ivt`:
`nanpercentile(speed, 85)` floored at `VEL_MIN` when `max(speed) > 0`, else
`VEL_MIN`. -/
def ivtVt (sq : ℚ → ℚ) (s : List Row) : ℚ :=
  if 0 < qmax (ivtSpeeds sq s)
  then max (percentile PERCENTIL_LIMIAR_VEL (ivtSpeeds sq s)) VEL_MIN
  else VEL_MIN

/-- The `label` column of `rotular_ivt`:
`np.where(speed <= vt, "fix", "sac")`. -/
def ivtLabels (sq : ℚ → ℚ) (s : List Row) : List Label :=
  (ivtSpeeds sq s).map (fun sp => if sp ≤ ivtVt sq s then Label.fix else Label.sac)

/-- `rotular_ivt(explore)` from `datapipeline.py`: the I-VT classifier.
`sq` stands for `numpy.sqrt` (see the module comment).  Returns the labeled
frame and the velocity threshold used. -/
def rotular_ivt (sq : ℚ → ℚ) (explore : List Row) : List IvtRow × ℚ :=
  if explore.length < 3 then
    (explore.map (fun r =>
      { pac := r.pac, key := r.key, t := r.t, x := r.x, y := r.y,
        dx := 0, dy := 0, dt := 0, speed := 0,
        label := Label.fix, segId := 1 }), VEL_MIN)
  else
    let s := sortByT explore
    ((List.range s.length).map (fun i =>
      let r := s.getD i default
      { pac := r.pac, key := r.key, t := r.t, x := r.x, y := r.y,
        dx := (diffs0 (fun a => a.x) s).getD i 0,
        dy := (diffs0 (fun a => a.y) s).getD i 0,
        dt := (ivtDts s).getD i 0,
        speed := (ivtSpeeds sq s).getD i 0,
        label := (ivtLabels sq s).getD i Label.fix,
        segId := (segIds (ivtLabels sq s)).getD i 0 }), ivtVt sq s)

/-- The result of `janela_exploracao`: the exploration window plus the
`(t0, t_resp, tempo_resposta, resposta)` scalars, with `none` for NaN. -/
structure Janela where
  explore : List Row
  t0 : Option ℚ
  tResp : Option ℚ
  tempoResposta : Option ℚ
  resposta : Option ℤ
deriving DecidableEq, Repr

/-- `janela_exploracao(df_pac)` from `datapipeline.py`: sorts by time, finds
the first sample with `Key != 0`, and builds the pre-response exploration
window. -/
def janela_exploracao (dfPac : List Row) : Janela :=
  if dfPac.isEmpty then
    { explore := dfPac, t0 := none, tResp := none,
      tempoResposta := none, resposta := none }
  else
    let s := sortByT dfPac
    let t0 := (s.headD default).t
    match s.findIdx? (fun r => r.key ≠ 0) with
    | some k =>
      let tResp := (s.getD k default).t
      let resposta := (s.getD k default).key
      { explore := (s.take k).filter (fun r => r.key = 0),
        t0 := some t0, tResp := some tResp,
        tempoResposta := some (tResp - t0), resposta := some resposta }
    | none =>
      let tResp := (s.getLastD default).t
      { explore := s.filter (fun r => r.key = 0),
        t0 := some t0, tResp := some tResp,
        tempoResposta := some (tResp - t0), resposta := none }

/-- One row of the output of `segmentos_por_label`: a maximal group of
samples sharing (`seg_id`, `label`). -/
structure Seg where
  segId : ℕ
  label : Label
  tStart : ℚ
  tEnd : ℚ
  n : ℕ
  xStart : ℚ
  yStart : ℚ
  xEnd : ℚ
  yEnd : ℚ
  dur : ℚ
deriving DecidableEq, Repr, Inhabited

/-- The sort position of a label inside a `groupby` key: pandas sorts group
keys, and the strings satisfy "fix" < "sac". -/
def labelIdx : Label → ℕ
  | Label.fix => 0
  | Label.sac => 1

/-- Lexicographic order on `groupby(["seg_id", "label"])` keys. -/
def segKeyLe (a b : ℕ × Label) : Prop :=
  a.1 < b.1 ∨ (a.1 = b.1 ∧ labelIdx a.2 ≤ labelIdx b.2)

instance : DecidableRel segKeyLe := fun a b => by
  unfold segKeyLe; infer_instance

/-- The distinct (`seg_id`, `label`) keys of a labeled frame, in the sorted
order pandas `groupby` produces them. -/
def segKeys (l : List IvtRow) : List (ℕ × Label) :=
  ((l.map (fun r => (r.segId, r.label))).dedup).insertionSort segKeyLe

/-- `segmentos_por_label(explore_ivt)` from `datapipeline.py`:
`groupby(["seg_id", "label"])` with `min`/`max`/`size`/`first`/`last`
aggregates and the derived `dur = t_end - t_start` column. -/
def segmentos_por_label (l : List IvtRow) : List Seg :=
  if l.isEmpty then []
  else
    (segKeys l).map (fun k =>
      let g := l.filter (fun r => r.segId = k.1 ∧ r.label = k.2)
      let ts := g.map (fun r => r.t)
      { segId := k.1, label := k.2,
        tStart := qmin ts, tEnd := qmax ts, n := g.length,
        xStart := (g.headD default).x, yStart := (g.headD default).y,
        xEnd := (g.getLastD default).x, yEnd := (g.getLastD default).y,
        dur := qmax ts - qmin ts })

/-- `dispersao_area_bb(explore)` from `datapipeline.py`: bounding-box area of
the exploration window, `0` for fewer than 2 points. -/
def dispersao_area_bb (explore : List Row) : ℚ :=
  if explore.length < 2 then 0
  else
    (qmax (explore.map (fun r => r.x)) - qmin (explore.map (fun r => r.x))) *
      (qmax (explore.map (fun r => r.y)) - qmin (explore.map (fun r => r.y)))

/-- The per-row rescaling applied by `_normalizar_grupo` to the rows of the
group `g`. -/
def normGrupoF (g : List Row) (r : Row) : Row :=
  { r with
    x := if 1/10 ^ 10 < qmax (g.map (fun a => a.x)) - qmin (g.map (fun a => a.x))
      then (r.x - qmin (g.map (fun a => a.x))) /
        (qmax (g.map (fun a => a.x)) - qmin (g.map (fun a => a.x)))
      else 1/2,
    y := if 1/10 ^ 10 < qmax (g.map (fun a => a.y)) - qmin (g.map (fun a => a.y))
      then (r.y - qmin (g.map (fun a => a.y))) /
        (qmax (g.map (fun a => a.y)) - qmin (g.map (fun a => a.y)))
      else 1/2 }

/-- The per-subject body `_normalizar_grupo(g)` of `normalizar_coordenadas`:
min-max scaling of `X` and `Y` onto `[0, 1]`, with the constant `1/2` when
the coordinate range is not above `1e-10`. -/
def normGrupo (g : List Row) : List Row := g.map (normGrupoF g)

/-- The rows of subject `p`. -/
def filterPac (p : ℕ) (l : List Row) : List Row :=
  l.filter (fun r => r.pac = p)

/-- The number of distinct subjects of a table
(`len(df["paciente_id"].unique())`). -/
def numPacs (l : List Row) : ℕ := ((l.map (fun r => r.pac)).dedup).length

/-- The distinct subjects of a table in ascending order (pandas `groupby`
sorts group keys). -/
def pacsSorted (l : List Row) : List ℕ :=
  ((l.map (fun r => r.pac)).dedup).insertionSort (· ≤ ·)

/-- `normalizar_coordenadas(df)` from `datapipeline.py`: per-subject min-max
normalization; the multi-subject path applies `_normalizar_grupo` per
`groupby("paciente_id")` group (concatenated in sorted group order), the
single-subject path applies it to the whole table. -/
def normalizar_coordenadas (df : List Row) : List Row :=
  if !NORMALIZAR_COORDS || df.isEmpty then df
  else if 1 < numPacs df then
    (pacsSorted df).flatMap (fun p => normGrupo (filterPac p df))
  else normGrupo df

/-- The IQR keep-test `_iqr_mask` of `limpar_e_outliers`: quartiles by
linear-interpolation `quantile([0.25, 0.75])`, bounds
`[Q1 - 1.5·IQR, Q3 + 1.5·IQR]`. -/
def iqrKeep (vals : List ℚ) (v : ℚ) : Bool :=
  let q1 := percentile 25 vals
  let q3 := percentile 75 vals
  let iqr := q3 - q1
  decide (q1 - 3/2 * iqr ≤ v ∧ v ≤ q3 + 3/2 * iqr)

/-- Duplicate-timestamp removal against the previous row in frame order
(`df["t_sec"].diff()`): a row is dropped exactly when its time delta from
the previous row is exactly `0`; the first row (NaN delta) is kept.  `prev`
is the previous row's time, `none` at the start. -/
def dropPlainAux (prev : Option ℚ) : List Row → List Row
  | [] => []
  | b :: l =>
    (match prev with
     | none => [b]
     | some tp => if b.t - tp = 0 then [] else [b]) ++ dropPlainAux (some b.t) l

/-- The single-subject duplicate-timestamp removal path of
`limpar_e_outliers`. -/
def dropDupPlain (l : List Row) : List Row := dropPlainAux none l

/-- Lookup in the per-subject last-time table carried by
`dropDupGroupedGo`. -/
def lookupT (p : ℕ) : List (ℕ × ℚ) → Option ℚ
  | [] => none
  | (q, t) :: l => if q = p then some t else lookupT p l

/-- Worker for the multi-subject duplicate-timestamp removal:
`groupby("paciente_id")["t_sec"].diff()` takes each row's delta against the
previous row of the same subject (`none` when there is none), and rows with
delta exactly `0` are dropped. -/
def dropDupGroupedGo (seen : List (ℕ × ℚ)) : List Row → List Row
  | [] => []
  | b :: l =>
    (match lookupT b.pac seen with
     | none => [b]
     | some tp => if b.t - tp = 0 then [] else [b]) ++
      dropDupGroupedGo ((b.pac, b.t) :: seen) l

/-- The multi-subject duplicate-timestamp removal path of
`limpar_e_outliers`. -/
def dropDupGrouped (l : List Row) : List Row := dropDupGroupedGo [] l

/-- Stage 1 of `limpar_e_outliers`: drop rows with `X == 0` and `Y == 0`
(sensor dropout). -/
def limparDf1 (df : List Row) : List Row :=
  df.filter (fun r => ¬(r.x = 0 ∧ r.y = 0))

/-- Stage 2 of `limpar_e_outliers`:
`sort_values(["paciente_id", "t_sec"])`. -/
def limparDf2 (df : List Row) : List Row := sortPacT (limparDf1 df)

/-- Stage 3 of `limpar_e_outliers`: the IQR outlier filter — per subject
when the sorted table has more than one subject (`groupby` + `_iqr_mask`),
over the whole table otherwise. -/
def limparDf3 (df : List Row) : List Row :=
  if 1 < numPacs (limparDf2 df) then
    (limparDf2 df).filter (fun r =>
      iqrKeep ((filterPac r.pac (limparDf2 df)).map (fun s => s.x)) r.x &&
        iqrKeep ((filterPac r.pac (limparDf2 df)).map (fun s => s.y)) r.y)
  else
    (limparDf2 df).filter (fun r =>
      iqrKeep ((limparDf2 df).map (fun s => s.x)) r.x &&
        iqrKeep ((limparDf2 df).map (fun s => s.y)) r.y)

/-- `limpar_e_outliers(df)` from `datapipeline.py`: drops `(0, 0)` dropout
samples, sorts by (`paciente_id`, `t_sec`), removes per-subject IQR
outliers on `X` and `Y` (whole-table bounds when there is at most one
subject), then removes duplicate-timestamp rows (per subject when there is
more than one; each Python `df = ...` reassignment is one of the staged
definitions above). -/
def limpar_e_outliers (df : List Row) : List Row :=
  if df.isEmpty then df
  else if 1 < numPacs (limparDf3 df) then dropDupGrouped (limparDf3 df)
  else dropDupPlain (limparDf3 df)

/-- The metric row of `metricas_paciente_por_estimulo`, with `none` for NaN
cells. -/
structure Metricas where
  resposta : Option ℤ
  tempo_resposta_s : Option ℚ
  n_sacadas : ℕ
  tempo_medio_sacada_s : Option ℚ
  n_fixacoes : ℕ
  duracao_media_fix_s : Option ℚ
  dispersao_area : ℚ
  limiar_vt : Option ℚ
deriving DecidableEq, Repr

/-- `metricas_paciente_por_estimulo(df_pac_est)` from `datapipeline.py`:
per-(subject, stimulus) scalar metrics.  `sq` stands for `numpy.sqrt`
inside the I-VT classifier. -/
def metricas_paciente_por_estimulo (sq : ℚ → ℚ) (df : List Row) : Metricas :=
  if df.isEmpty then
    { resposta := none, tempo_resposta_s := none, n_sacadas := 0,
      tempo_medio_sacada_s := none, n_fixacoes := 0,
      duracao_media_fix_s := none, dispersao_area := 0, limiar_vt := none }
  else
    let j := janela_exploracao df
    if j.explore.isEmpty then
      { resposta := j.resposta,
        tempo_resposta_s := j.tempoResposta.map (roundTo 3),
        n_sacadas := 0, tempo_medio_sacada_s := none, n_fixacoes := 0,
        duracao_media_fix_s := none, dispersao_area := 0, limiar_vt := none }
    else
      let iv := rotular_ivt sq j.explore
      let seg := segmentos_por_label iv.1
      let fix := seg.filter (fun s => s.label = Label.fix ∧ FIX_MIN_S ≤ s.dur)
      let sac := seg.filter (fun s => s.label = Label.sac)
      let disp := dispersao_area_bb j.explore
      { resposta := j.resposta,
        tempo_resposta_s := j.tempoResposta.map (roundTo 3),
        n_sacadas := sac.length,
        tempo_medio_sacada_s :=
          if sac.isEmpty then none
          else some (roundTo 4 (qmean (sac.map (fun s => s.dur)))),
        n_fixacoes := fix.length,
        duracao_media_fix_s :=
          if fix.isEmpty then none
          else some (roundTo 4 (qmean (fix.map (fun s => s.dur)))),
        dispersao_area := roundTo 6 disp,
        limiar_vt := some (roundTo 4 iv.2) }

/-- `len(METRICAS_COMPARAR)`: the six compared metric columns
(`tempo_resposta_s`, `n_sacadas`, `tempo_medio_sacada_s`, `n_fixacoes`,
`duracao_media_fix_s`, `dispersao_area`), referred to below by their index
in that list. -/
def NUM_METRICAS : ℕ := 6

/-- One row of a per-group metric table fed to `estatisticas_inter_grupo`:
the stimulus id and the `METRICAS_COMPARAR` cells in order (`none` =
NaN). -/
structure MetRow where
  stim : ℕ
  vals : List (Option ℚ)
deriving DecidableEq, Repr, Inhabited

/-- One output row of `estatisticas_inter_grupo` (`None` cells become
`none`).  `metrica` is the index of the metric in `METRICAS_COMPARAR`. -/
structure CompRow where
  stim : ℕ
  metrica : ℕ
  controleMedia : Option ℚ
  controleDesvio : Option ℚ
  afasicoMedia : Option ℚ
  afasicoDesvio : Option ℚ
  mannWhitneyU : Option ℚ
  pValue : Option ℚ
deriving DecidableEq, Repr, Inhabited

/-- `numpy.std(arr, ddof=1)` squared: the sample variance.  The code takes
its square root via `numpy`; the model applies the `sq` parameter to this
value. -/
def sampleVar (l : List ℚ) : ℚ :=
  ((l.map (fun v => (v - qmean l) ^ 2)).sum) / ((l.length : ℚ) - 1)

/-- `estatisticas_inter_grupo(mets_ctrl, mets_afa)` from `datapipeline.py`.
`sq` stands for `numpy.sqrt` (sample std = `sq` of the sample variance);
`scipyOk` is the `SCIPY_OK` flag; `mw` stands for the external
`scipy.stats.mannwhitneyu` call, `none` meaning the call raised (the
`except` branch).  For each stimulus appearing in either table and each
compared metric, a comparison row is emitted unless both groups have zero
non-NaN samples.  The code finally sorts the rows by (`Stimuli`,
`Metrica`) for presentation and writes a CSV; the model keeps emission
order, which the claims do not depend on. -/
def estatisticas_inter_grupo (sq : ℚ → ℚ) (scipyOk : Bool)
    (mw : List ℚ → List ℚ → Option (ℚ × ℚ))
    (metsCtrl metsAfa : List MetRow) : List CompRow :=
  let stimTodos :=
    (((metsCtrl.map (fun r => r.stim)) ++ (metsAfa.map (fun r => r.stim))).dedup).insertionSort (· ≤ ·)
  stimTodos.flatMap (fun stim =>
    let ctrl := metsCtrl.filter (fun r => r.stim = stim)
    let afa := metsAfa.filter (fun r => r.stim = stim)
    (List.range NUM_METRICAS).filterMap (fun m =>
      let arrC := ctrl.filterMap (fun r => r.vals.getD m none)
      let arrA := afa.filterMap (fun r => r.vals.getD m none)
      if arrC.length = 0 ∧ arrA.length = 0 then none
      else some
        { stim := stim, metrica := m,
          controleMedia :=
            if 0 < arrC.length then some (roundTo 6 (qmean arrC)) else none,
          controleDesvio :=
            if 1 < arrC.length then some (roundTo 6 (sq (sampleVar arrC))) else none,
          afasicoMedia :=
            if 0 < arrA.length then some (roundTo 6 (qmean arrA)) else none,
          afasicoDesvio :=
            if 1 < arrA.length then some (roundTo 6 (sq (sampleVar arrA))) else none,
          mannWhitneyU :=
            if scipyOk ∧ 0 < arrC.length ∧ 0 < arrA.length then
              (mw arrC arrA).map (fun uv => roundTo 6 uv.1)
            else none,
          pValue :=
            if scipyOk ∧ 0 < arrC.length ∧ 0 < arrA.length then
              (mw arrC arrA).map (fun uv => roundTo 6 uv.2)
            else none }))

/-! ### Basic facts about the fold-based column aggregates -/

theorem le_foldl_max (l : List ℚ) (a : ℚ) : a ≤ l.foldl max a := by
  induction l generalizing a with
  | nil => exact le_refl a
  | cons b t ih => exact le_trans (le_max_left a b) (ih (max a b))

theorem mem_le_foldl_max {l : List ℚ} {v : ℚ} (h : v ∈ l) (a : ℚ) :
    v ≤ l.foldl max a := by
  induction l generalizing a with
  | nil => cases h
  | cons b t ih =>
    rcases List.mem_cons.mp h with rfl | hv
    · exact le_trans (le_max_right a v) (le_foldl_max t (max a v))
    · exact ih hv (max a b)

theorem foldl_max_le {c : ℚ} (l : List ℚ) (a : ℚ) (ha : a ≤ c)
    (h : ∀ v ∈ l, v ≤ c) : l.foldl max a ≤ c := by
  induction l generalizing a with
  | nil => exact ha
  | cons b t ih =>
    exact ih (max a b) (max_le ha (h b (List.mem_cons_self b t)))
      (fun v hv => h v (List.mem_cons_of_mem _ hv))

theorem foldl_max_mem (l : List ℚ) (a : ℚ) :
    l.foldl max a = a ∨ l.foldl max a ∈ l := by
  induction l generalizing a with
  | nil => exact Or.inl rfl
  | cons b t ih =>
    rcases ih (max a b) with h | h
    · rcases max_choice a b with hm | hm
      · exact Or.inl (by rw [List.foldl_cons, h, hm])
      · exact Or.inr (by
          rw [List.foldl_cons, h, hm]; exact List.mem_cons_self b t)
    · exact Or.inr (List.mem_cons_of_mem b h)

theorem foldl_min_le (l : List ℚ) (a : ℚ) : l.foldl min a ≤ a := by
  induction l generalizing a with
  | nil => exact le_refl a
  | cons b t ih => exact le_trans (ih (min a b)) (min_le_left a b)

theorem foldl_min_le_mem {l : List ℚ} {v : ℚ} (h : v ∈ l) (a : ℚ) :
    l.foldl min a ≤ v := by
  induction l generalizing a with
  | nil => cases h
  | cons b t ih =>
    rcases List.mem_cons.mp h with rfl | hv
    · exact le_trans (foldl_min_le t (min a v)) (min_le_right a v)
    · exact ih hv (min a b)

theorem le_foldl_min {c : ℚ} (l : List ℚ) (a : ℚ) (ha : c ≤ a)
    (h : ∀ v ∈ l, c ≤ v) : c ≤ l.foldl min a := by
  induction l generalizing a with
  | nil => exact ha
  | cons b t ih =>
    exact ih (min a b) (le_min ha (h b (List.mem_cons_self b t)))
      (fun v hv => h v (List.mem_cons_of_mem _ hv))

theorem foldl_min_mem (l : List ℚ) (a : ℚ) :
    l.foldl min a = a ∨ l.foldl min a ∈ l := by
  induction l generalizing a with
  | nil => exact Or.inl rfl
  | cons b t ih =>
    rcases ih (min a b) with h | h
    · rcases min_choice a b with hm | hm
      · exact Or.inl (by rw [List.foldl_cons, h, hm])
      · exact Or.inr (by
          rw [List.foldl_cons, h, hm]; exact List.mem_cons_self b t)
    · exact Or.inr (List.mem_cons_of_mem b h)

theorem le_qmax_of_mem {l : List ℚ} {v : ℚ} (h : v ∈ l) : v ≤ qmax l := by
  cases l with
  | nil => cases h
  | cons a t =>
    rcases List.mem_cons.mp h with rfl | hv
    · exact le_foldl_max t v
    · exact mem_le_foldl_max hv a

theorem qmin_le_of_mem {l : List ℚ} {v : ℚ} (h : v ∈ l) : qmin l ≤ v := by
  cases l with
  | nil => cases h
  | cons a t =>
    rcases List.mem_cons.mp h with rfl | hv
    · exact foldl_min_le t v
    · exact foldl_min_le_mem hv a

theorem qmax_mem {l : List ℚ} (h : l ≠ []) : qmax l ∈ l := by
  cases l with
  | nil => exact absurd rfl h
  | cons a t =>
    rcases foldl_max_mem t a with h1 | h1
    · rw [qmax, h1]; exact List.mem_cons_self a t
    · exact List.mem_cons_of_mem a h1

theorem qmin_mem {l : List ℚ} (h : l ≠ []) : qmin l ∈ l := by
  cases l with
  | nil => exact absurd rfl h
  | cons a t =>
    rcases foldl_min_mem t a with h1 | h1
    · rw [qmin, h1]; exact List.mem_cons_self a t
    · exact List.mem_cons_of_mem a h1

theorem qmax_le {l : List ℚ} {c : ℚ} (h : l ≠ []) (hb : ∀ v ∈ l, v ≤ c) :
    qmax l ≤ c := hb _ (qmax_mem h)

theorem le_qmin {l : List ℚ} {c : ℚ} (h : l ≠ []) (hb : ∀ v ∈ l, c ≤ v) :
    c ≤ qmin l := hb _ (qmin_mem h)

/-! ### Indexing helpers -/

theorem getD_map_range {α : Type} (f : ℕ → α) {n i : ℕ} (d : α) (h : i < n) :
    ((List.range n).map f).getD i d = f i := by
  rw [List.getD_eq_getElem _ _ (by simpa using h)]
  simp

theorem getD_map {α β : Type} (f : α → β) {l : List α} {i : ℕ} (d : β)
    (e : α) (h : i < l.length) : (l.map f).getD i d = f (l.getD i e) := by
  rw [List.getD_eq_getElem _ _ (by simpa using h), List.getD_eq_getElem _ _ h]
  simp

theorem length_zipWith3 {α β γ δ : Type} (f : α → β → γ → δ) :
    ∀ (l1 : List α) (l2 : List β) (l3 : List γ),
      (List.zipWith3 f l1 l2 l3).length = min (min l1.length l2.length) l3.length
  | [], _, _ => by simp [List.zipWith3]
  | _ :: _, [], _ => by simp [List.zipWith3]
  | _ :: _, _ :: _, [] => by simp [List.zipWith3]
  | _ :: as, _ :: bs, _ :: cs => by
    simp only [List.zipWith3, List.length_cons, length_zipWith3 f as bs cs]
    omega

theorem diffs0_length (f : Row → ℚ) (l : List Row) :
    (diffs0 f l).length = l.length := by
  cases l with
  | nil => rfl
  | cons a t => simp [diffs0]

theorem diffs0_getD_zero (f : Row → ℚ) (l : List Row) (h : l ≠ []) :
    (diffs0 f l).getD 0 0 = 0 := by
  cases l with
  | nil => exact absurd rfl h
  | cons a t => rfl

theorem diffs0_getD_succ (f : Row → ℚ) (l : List Row) (i : ℕ)
    (h : i + 1 < l.length) :
    (diffs0 f l).getD (i + 1) 0 =
      f (l.getD (i + 1) default) - f (l.getD i default) := by
  cases l with
  | nil => simp at h
  | cons a t =>
    have hi : i < t.length := by simpa using h
    have hz : i < (List.zipWith (fun p q => f q - f p) (a :: t) t).length := by
      simp
      omega
    rw [diffs0, List.getD_cons_succ, List.getD_cons_succ,
      List.getD_eq_getElem _ _ hz, List.getElem_zipWith,
      List.getD_eq_getElem _ _ hi, List.getD_eq_getElem _ _ (by omega : i < (a :: t).length)]

theorem ivtDts_length (s : List Row) : (ivtDts s).length = s.length := by
  simp [ivtDts, diffs0_length]

theorem ivtDts_getD (s : List Row) (i : ℕ) (h : i < s.length) :
    (ivtDts s).getD i 0 =
      max ((diffs0 (fun r => r.t) s).getD i 0) EPS_DT := by
  have h1 : i < ((diffs0 (fun r => r.t) s).map
      (fun d => if d = 0 then EPS_DT else d)).length := by
    simp [diffs0_length]
    exact h
  have h2 : i < (diffs0 (fun r => r.t) s).length := by
    rw [diffs0_length]; exact h
  unfold ivtDts
  rw [getD_map _ 0 0 h1, getD_map _ 0 0 h2]
  by_cases hr : (diffs0 (fun r => r.t) s).getD i 0 = 0
  · rw [if_pos hr, hr, max_self, max_eq_right]
    norm_num [EPS_DT]
  · rw [if_neg hr]

theorem ivtSpeeds_length (sq : ℚ → ℚ) (s : List Row) :
    (ivtSpeeds sq s).length = s.length := by
  simp [ivtSpeeds, length_zipWith3, diffs0_length, ivtDts_length]

theorem ivtLabels_length (sq : ℚ → ℚ) (s : List Row) :
    (ivtLabels sq s).length = s.length := by
  simp [ivtLabels, ivtSpeeds_length]

theorem rotular_ivt_normal (sq : ℚ → ℚ) (explore : List Row)
    (h : ¬ explore.length < 3) :
    rotular_ivt sq explore =
      ((List.range (sortByT explore).length).map (fun i =>
        let r := (sortByT explore).getD i default
        { pac := r.pac, key := r.key, t := r.t, x := r.x, y := r.y,
          dx := (diffs0 (fun a => a.x) (sortByT explore)).getD i 0,
          dy := (diffs0 (fun a => a.y) (sortByT explore)).getD i 0,
          dt := (ivtDts (sortByT explore)).getD i 0,
          speed := (ivtSpeeds sq (sortByT explore)).getD i 0,
          label := (ivtLabels sq (sortByT explore)).getD i Label.fix,
          segId := (segIds (ivtLabels sq (sortByT explore))).getD i 0 }),
        ivtVt sq (sortByT explore)) := by
  unfold rotular_ivt
  rw [if_neg h]

theorem rotular_fst_getD (sq : ℚ → ℚ) (explore : List Row)
    (h : ¬ explore.length < 3) {i : ℕ} (hi : i < (sortByT explore).length) :
    ((rotular_ivt sq explore).1).getD i default =
      { pac := ((sortByT explore).getD i default).pac,
        key := ((sortByT explore).getD i default).key,
        t := ((sortByT explore).getD i default).t,
        x := ((sortByT explore).getD i default).x,
        y := ((sortByT explore).getD i default).y,
        dx := (diffs0 (fun a => a.x) (sortByT explore)).getD i 0,
        dy := (diffs0 (fun a => a.y) (sortByT explore)).getD i 0,
        dt := (ivtDts (sortByT explore)).getD i 0,
        speed := (ivtSpeeds sq (sortByT explore)).getD i 0,
        label := (ivtLabels sq (sortByT explore)).getD i Label.fix,
        segId := (segIds (ivtLabels sq (sortByT explore))).getD i 0 } := by
  rw [rotular_ivt_normal sq explore h]
  exact getD_map_range _ default hi

/-! ### C1: degenerate I-VT case -/

/-- C1: for every exploration window with fewer than 3 samples (including
the empty one) the I-VT classifier labels every sample fixation, zeroes
the `dx`/`dy`/`dt`/`speed` columns, assigns segment id 1 to every sample,
and returns exactly the velocity floor `VEL_MIN = 0.5` as the
threshold. -/
theorem c1_ivt_degenerate (sq : ℚ → ℚ) (explore : List Row)
    (h : explore.length < 3) :
    (∀ r ∈ (rotular_ivt sq explore).1,
        r.label = Label.fix ∧ r.dx = 0 ∧ r.dy = 0 ∧ r.dt = 0 ∧ r.speed = 0 ∧
          r.segId = 1) ∧
      (rotular_ivt sq explore).2 = VEL_MIN ∧ VEL_MIN = 1/2 := by
  unfold rotular_ivt
  rw [if_pos h]
  refine ⟨?_, rfl, rfl⟩
  intro r hr
  simp only [List.mem_map] at hr
  obtain ⟨a, -, rfl⟩ := hr
  exact ⟨rfl, rfl, rfl, rfl, rfl, rfl⟩

/-- Stand-in square-root function used to instantiate the `sq` parameter in
closed witness statements (the theorems hold for every `sq`). -/
def sqW : ℚ → ℚ := fun q => q

/-- A concrete 2-sample exploration window. -/
def exW1 : List Row :=
  [{ pac := 0, key := 0, t := 0, x := 1, y := 2 },
   { pac := 0, key := 0, t := 1, x := 3, y := 4 }]

/-- Witness: `c1_ivt_degenerate` applied to a concrete 2-sample window. -/
theorem c1_ivt_degenerate_witness :
    exW1.length < 3 ∧
      ((∀ r ∈ (rotular_ivt sqW exW1).1,
          r.label = Label.fix ∧ r.dx = 0 ∧ r.dy = 0 ∧ r.dt = 0 ∧
            r.speed = 0 ∧ r.segId = 1) ∧
        (rotular_ivt sqW exW1).2 = VEL_MIN ∧ VEL_MIN = 1/2) :=
  ⟨by decide, c1_ivt_degenerate sqW exW1 (by decide)⟩

/-! ### C2: delta computation in the normal I-VT case -/

theorem length_sortByT (l : List Row) : (sortByT l).length = l.length :=
  List.length_insertionSort _ l

/-- C2 (amended): with at least 3 samples, each sample's `dx`/`dy` deltas
are taken against the immediately preceding time-sorted sample and the
first sample's `dx`/`dy` are 0; the stored `dt`, however, is
`max(raw dt, 1e-6)` — the raw delta is replaced by the epsilon `1e-6`
exactly when it is smaller than `1e-6` (so the first sample's stored `dt`
is `1e-6`, and strictly positive raw deltas below `1e-6` are replaced as
well, not only deltas `≤ 0`). -/
theorem c2_deltas (sq : ℚ → ℚ) (explore : List Row) (h : 3 ≤ explore.length) :
    ((rotular_ivt sq explore).1.getD 0 default).dx = 0 ∧
      ((rotular_ivt sq explore).1.getD 0 default).dy = 0 ∧
      ((rotular_ivt sq explore).1.getD 0 default).dt = EPS_DT ∧
      ∀ i, i + 1 < (sortByT explore).length →
        ((rotular_ivt sq explore).1.getD (i + 1) default).dx =
            ((sortByT explore).getD (i + 1) default).x -
              ((sortByT explore).getD i default).x ∧
          ((rotular_ivt sq explore).1.getD (i + 1) default).dy =
            ((sortByT explore).getD (i + 1) default).y -
              ((sortByT explore).getD i default).y ∧
          ((rotular_ivt sq explore).1.getD (i + 1) default).dt =
            max (((sortByT explore).getD (i + 1) default).t -
              ((sortByT explore).getD i default).t) EPS_DT := by
  have h3 : ¬ explore.length < 3 := by omega
  have hslen : (sortByT explore).length = explore.length := length_sortByT explore
  have hs0 : 0 < (sortByT explore).length := by omega
  have hsne : sortByT explore ≠ [] := List.ne_nil_of_length_pos hs0
  refine ⟨?_, ?_, ?_, ?_⟩
  · rw [rotular_fst_getD sq explore h3 hs0]
    exact diffs0_getD_zero _ _ hsne
  · rw [rotular_fst_getD sq explore h3 hs0]
    exact diffs0_getD_zero _ _ hsne
  · rw [rotular_fst_getD sq explore h3 hs0]
    dsimp only
    rw [ivtDts_getD _ 0 hs0, diffs0_getD_zero _ _ hsne, max_eq_right]
    norm_num [EPS_DT]
  · intro i hi
    rw [rotular_fst_getD sq explore h3 hi]
    dsimp only
    refine ⟨diffs0_getD_succ _ _ i hi, diffs0_getD_succ _ _ i hi, ?_⟩
    rw [ivtDts_getD _ (i + 1) hi, diffs0_getD_succ _ _ i hi]

/-- A concrete 3-sample window with distinct, increasing times. -/
def exW2 : List Row :=
  [{ pac := 0, key := 0, t := 0, x := 1, y := 2 },
   { pac := 0, key := 0, t := 1, x := 4, y := 6 },
   { pac := 0, key := 0, t := 3, x := 0, y := 0 }]

/-- Witness: `c2_deltas` applied to a concrete 3-sample window. -/
theorem c2_deltas_witness :
    3 ≤ exW2.length ∧
      (((rotular_ivt sqW exW2).1.getD 0 default).dx = 0 ∧
        ((rotular_ivt sqW exW2).1.getD 0 default).dy = 0 ∧
        ((rotular_ivt sqW exW2).1.getD 0 default).dt = EPS_DT ∧
        ∀ i, i + 1 < (sortByT exW2).length →
          ((rotular_ivt sqW exW2).1.getD (i + 1) default).dx =
              ((sortByT exW2).getD (i + 1) default).x -
                ((sortByT exW2).getD i default).x ∧
            ((rotular_ivt sqW exW2).1.getD (i + 1) default).dy =
              ((sortByT exW2).getD (i + 1) default).y -
                ((sortByT exW2).getD i default).y ∧
            ((rotular_ivt sqW exW2).1.getD (i + 1) default).dt =
              max (((sortByT exW2).getD (i + 1) default).t -
                ((sortByT exW2).getD i default).t) EPS_DT) :=
  ⟨by decide, c2_deltas sqW exW2 (by decide)⟩

/-- A window whose second raw time delta is `5e-7`: strictly positive but
below the epsilon. -/
def exC2 : List Row :=
  [{ pac := 0, key := 0, t := 0, x := 0, y := 0 },
   { pac := 0, key := 0, t := 1/2000000, x := 0, y := 0 },
   { pac := 0, key := 0, t := 1, x := 0, y := 0 }]

/-- Counterexample to C2 as stated: in this window the raw time delta of
sample 1 is `5e-7 > 0`, yet the classifier stores `dt = 1e-6` for it, so a
strictly positive delta is not left unchanged (it is replaced exactly when
it is below `1e-6`, not only when it is `≤ 0`). -/
theorem c2_counterexample :
    ((sortByT exC2).getD 1 default).t - ((sortByT exC2).getD 0 default).t =
        1/2000000 ∧
      (0 : ℚ) < 1/2000000 ∧
      ((rotular_ivt sqW exC2).1.getD 1 default).dt = EPS_DT ∧
      (1/2000000 : ℚ) ≠ EPS_DT := by
  have hsort : sortByT exC2 = exC2 := by
    norm_num [sortByT, exC2, List.insertionSort, List.orderedInsert]
  have h3 : ¬ exC2.length < 3 := by decide
  have hi : 0 + 1 < (sortByT exC2).length := by rw [hsort]; decide
  refine ⟨?_, by norm_num, ?_, by norm_num [EPS_DT]⟩
  · rw [hsort]
    norm_num [exC2]
  · rw [show (1 : ℕ) = 0 + 1 from rfl, rotular_fst_getD sqW exC2 h3 hi]
    dsimp only
    rw [ivtDts_getD _ (0 + 1) hi, diffs0_getD_succ _ _ 0 hi, hsort]
    rw [max_eq_right]
    norm_num [exC2, EPS_DT]

/-! ### C3: the velocity threshold -/

theorem rotular_speeds_map (sq : ℚ → ℚ) (explore : List Row)
    (h : ¬ explore.length < 3) :
    ((rotular_ivt sq explore).1).map (fun r => r.speed) =
      ivtSpeeds sq (sortByT explore) := by
  rw [rotular_ivt_normal sq explore h]
  dsimp only
  rw [List.map_map]
  apply List.ext_getElem
  · simp [ivtSpeeds_length]
  · intro n h1 h2
    simp only [List.getElem_map, List.getElem_range, Function.comp_apply]
    exact List.getD_eq_getElem _ _ h2

/-- C3: for every input the velocity threshold returned by the I-VT
classifier is at least the velocity floor; with at least 3 samples and a
positive maximum speed it equals the 85th percentile of the speed column
floored at `VEL_MIN`, and otherwise it equals `VEL_MIN` exactly. -/
theorem c3_threshold (sq : ℚ → ℚ) (explore : List Row) :
    VEL_MIN ≤ (rotular_ivt sq explore).2 ∧
      (if 3 ≤ explore.length ∧
          0 < qmax (((rotular_ivt sq explore).1).map (fun r => r.speed))
        then (rotular_ivt sq explore).2 =
          max (percentile PERCENTIL_LIMIAR_VEL
            (((rotular_ivt sq explore).1).map (fun r => r.speed))) VEL_MIN
        else (rotular_ivt sq explore).2 = VEL_MIN) := by
  by_cases h : explore.length < 3
  · have hsnd : (rotular_ivt sq explore).2 = VEL_MIN := by
      unfold rotular_ivt
      rw [if_pos h]
    refine ⟨le_of_eq hsnd.symm, ?_⟩
    rw [if_neg]
    · exact hsnd
    · rintro ⟨h1, -⟩
      omega
  · have hsnd : (rotular_ivt sq explore).2 = ivtVt sq (sortByT explore) := by
      rw [rotular_ivt_normal sq explore h]
    have hmap := rotular_speeds_map sq explore h
    rw [hsnd, hmap]
    constructor
    · unfold ivtVt
      by_cases hp : 0 < qmax (ivtSpeeds sq (sortByT explore))
      · rw [if_pos hp]
        exact le_max_right _ _
      · rw [if_neg hp]
    · by_cases hp : 0 < qmax (ivtSpeeds sq (sortByT explore))
      · rw [if_pos ⟨by omega, hp⟩]
        unfold ivtVt
        rw [if_pos hp]
      · rw [if_neg (fun hc => hp hc.2)]
        unfold ivtVt
        rw [if_neg hp]

/-! ### C4: segment ids -/

theorem cumsumB_length (acc : ℕ) (l : List Bool) :
    (cumsumB acc l).length = l.length := by
  induction l generalizing acc with
  | nil => rfl
  | cons b t ih => simp [cumsumB, ih]

theorem chgFlags_length (l : List Label) : (chgFlags l).length = l.length := by
  cases l with
  | nil => rfl
  | cons a t => simp [chgFlags]

theorem segIds_length (l : List Label) : (segIds l).length = l.length := by
  rw [segIds, cumsumB_length, chgFlags_length]

theorem cumsumB_getD_succ (acc : ℕ) (l : List Bool) (i : ℕ)
    (h : i + 1 < l.length) :
    (cumsumB acc l).getD (i + 1) 0 =
      (cumsumB acc l).getD i 0 + (if l.getD (i + 1) false then 1 else 0) := by
  induction l generalizing acc i with
  | nil => simp at h
  | cons b t ih =>
    cases i with
    | zero =>
      cases t with
      | nil => simp at h
      | cons c m => simp [cumsumB]
    | succ j =>
      have h' : j + 1 < t.length := by simpa using h
      simp only [cumsumB, List.getD_cons_succ]
      exact ih _ j h'

theorem chgFlags_getD_succ (l : List Label) (i : ℕ) (h : i + 1 < l.length) :
    (chgFlags l).getD (i + 1) false =
      decide (l.getD (i + 1) Label.fix ≠ l.getD i Label.fix) := by
  cases l with
  | nil => simp at h
  | cons a t =>
    have hi : i < t.length := by simpa using h
    have hz : i < (List.zipWith (fun p q => decide (q ≠ p)) (a :: t) t).length := by
      simp
      omega
    rw [chgFlags, List.getD_cons_succ, List.getD_cons_succ,
      List.getD_eq_getElem _ _ hz, List.getElem_zipWith,
      List.getD_eq_getElem _ _ hi,
      List.getD_eq_getElem _ _ (by omega : i < (a :: t).length)]

theorem segIds_getD_zero (labels : List Label) (h : labels ≠ []) :
    (segIds labels).getD 0 0 = 1 := by
  cases labels with
  | nil => exact absurd rfl h
  | cons a t => rfl

theorem segIds_step (labels : List Label) (i : ℕ) (h : i + 1 < labels.length) :
    (segIds labels).getD (i + 1) 0 =
      (segIds labels).getD i 0 +
        if labels.getD (i + 1) Label.fix ≠ labels.getD i Label.fix then 1
        else 0 := by
  unfold segIds
  rw [cumsumB_getD_succ _ _ i (by rw [chgFlags_length]; exact h),
    chgFlags_getD_succ labels i h]
  by_cases hp : labels.getD (i + 1) Label.fix ≠ labels.getD i Label.fix
  · simp [hp]
  · simp [hp]

/-- C4: in every frame produced by the I-VT classifier the first sample has
segment id 1, segment ids are monotone non-decreasing, and the id strictly
increases from position `i` to `i+1` exactly when the label changes there
(otherwise it stays constant). -/
theorem c4_segment_ids (sq : ℚ → ℚ) (explore : List Row) :
    ((rotular_ivt sq explore).1 ≠ [] →
        (((rotular_ivt sq explore).1).getD 0 default).segId = 1) ∧
      ∀ i, i + 1 < ((rotular_ivt sq explore).1).length →
        (((rotular_ivt sq explore).1).getD i default).segId ≤
            (((rotular_ivt sq explore).1).getD (i + 1) default).segId ∧
          ((((rotular_ivt sq explore).1).getD i default).segId <
              (((rotular_ivt sq explore).1).getD (i + 1) default).segId ↔
            (((rotular_ivt sq explore).1).getD (i + 1) default).label ≠
              (((rotular_ivt sq explore).1).getD i default).label) := by
  by_cases h : explore.length < 3
  · have hout : (rotular_ivt sq explore).1 = explore.map (fun r =>
        { pac := r.pac, key := r.key, t := r.t, x := r.x, y := r.y,
          dx := 0, dy := 0, dt := 0, speed := 0,
          label := Label.fix, segId := 1 } : Row → IvtRow) := by
      unfold rotular_ivt
      rw [if_pos h]
    rw [hout]
    constructor
    · intro hne
      have hlen : 0 < explore.length := by
        cases explore with
        | nil => simp at hne
        | cons a t => simp
      rw [getD_map _ default default hlen]
    · intro i hi
      have hi' : i + 1 < explore.length := by simpa using hi
      rw [getD_map _ default default hi', getD_map _ default default (by omega)]
      simp
  · have hn : (sortByT explore).length = explore.length := length_sortByT explore
    have hlen : ((rotular_ivt sq explore).1).length = (sortByT explore).length := by
      rw [rotular_ivt_normal sq explore h]
      simp
    have hlablen : (ivtLabels sq (sortByT explore)).length = (sortByT explore).length :=
      ivtLabels_length sq (sortByT explore)
    constructor
    · intro hne
      have h0 : 0 < (sortByT explore).length := by omega
      rw [rotular_fst_getD sq explore h h0]
      dsimp only
      apply segIds_getD_zero
      intro hcon
      rw [hcon] at hlablen
      simp at hlablen
      omega
    · intro i hi
      have hi1 : i + 1 < (sortByT explore).length := by omega
      have hi0 : i < (sortByT explore).length := by omega
      rw [rotular_fst_getD sq explore h hi1, rotular_fst_getD sq explore h hi0]
      dsimp only
      rw [segIds_step _ i (by rw [hlablen]; exact hi1)]
      by_cases hc : (ivtLabels sq (sortByT explore)).getD (i + 1) Label.fix ≠
          (ivtLabels sq (sortByT explore)).getD i Label.fix
      · rw [if_pos hc]
        exact ⟨Nat.le_succ _, by simpa using hc⟩
      · rw [if_neg hc]
        simp only [Nat.add_zero]
        exact ⟨le_refl _, by simpa using hc⟩

/-- Witness: `c4_segment_ids` at a concrete 3-sample window, with the inner
hypotheses discharged at position 0. -/
theorem c4_segment_ids_witness :
    ((rotular_ivt sqW exW2).1 ≠ [] ∧
        (((rotular_ivt sqW exW2).1).getD 0 default).segId = 1) ∧
      (0 + 1 < ((rotular_ivt sqW exW2).1).length ∧
        (((rotular_ivt sqW exW2).1).getD 0 default).segId ≤
            (((rotular_ivt sqW exW2).1).getD (0 + 1) default).segId ∧
          ((((rotular_ivt sqW exW2).1).getD 0 default).segId <
              (((rotular_ivt sqW exW2).1).getD (0 + 1) default).segId ↔
            (((rotular_ivt sqW exW2).1).getD (0 + 1) default).label ≠
              (((rotular_ivt sqW exW2).1).getD 0 default).label)) :=
  ⟨⟨by decide, (c4_segment_ids sqW exW2).1 (by decide)⟩,
    ⟨by decide, (c4_segment_ids sqW exW2).2 0 (by decide)⟩⟩

/-! ### C5: the response-window extractor -/

/-- C5: on the time-sorted samples, `janela_exploracao` reports `t0` as the
first sample's time; if the first sample with a non-zero response code sits
at position `k` it reports that sample's time and code and takes as
exploration window exactly the `Key = 0` samples strictly before `k`; if
no sample has a non-zero code it reports the last sample's time, an
undefined code, and all `Key = 0` samples; the empty input yields all
fields undefined and an empty window; and the response time is
`t_resp - t0` in every non-empty case. -/
theorem c5_janela (dfPac : List Row) :
    (dfPac = [] →
        janela_exploracao dfPac =
          { explore := [], t0 := none, tResp := none,
            tempoResposta := none, resposta := none }) ∧
      (dfPac ≠ [] →
        (janela_exploracao dfPac).t0 =
            some (((sortByT dfPac).headD default).t) ∧
          (∀ k, k < (sortByT dfPac).length →
            ((sortByT dfPac).getD k default).key ≠ 0 →
            (∀ j, j < k → ((sortByT dfPac).getD j default).key = 0) →
            (janela_exploracao dfPac).tResp =
                some (((sortByT dfPac).getD k default).t) ∧
              (janela_exploracao dfPac).resposta =
                some (((sortByT dfPac).getD k default).key) ∧
              (janela_exploracao dfPac).explore =
                ((sortByT dfPac).take k).filter (fun r => r.key = 0) ∧
              (janela_exploracao dfPac).tempoResposta =
                some (((sortByT dfPac).getD k default).t -
                  ((sortByT dfPac).headD default).t)) ∧
          ((∀ r ∈ sortByT dfPac, r.key = 0) →
            (janela_exploracao dfPac).tResp =
                some (((sortByT dfPac).getLastD default).t) ∧
              (janela_exploracao dfPac).resposta = none ∧
              (janela_exploracao dfPac).explore =
                (sortByT dfPac).filter (fun r => r.key = 0) ∧
              (janela_exploracao dfPac).tempoResposta =
                some (((sortByT dfPac).getLastD default).t -
                  ((sortByT dfPac).headD default).t))) := by
  constructor
  · intro h
    subst h
    rfl
  · intro hne
    have hneB : ¬ (dfPac.isEmpty = true) := by
      simp only [List.isEmpty_iff]
      exact hne
    rcases hf : (sortByT dfPac).findIdx? (fun r => decide (r.key ≠ 0)) with - | j
    · -- no sample with a non-zero code
      have hjan : janela_exploracao dfPac =
          { explore := (sortByT dfPac).filter (fun r => r.key = 0),
            t0 := some (((sortByT dfPac).headD default).t),
            tResp := some (((sortByT dfPac).getLastD default).t),
            tempoResposta := some (((sortByT dfPac).getLastD default).t -
              ((sortByT dfPac).headD default).t),
            resposta := none } := by
        unfold janela_exploracao
        rw [if_neg hneB]
        dsimp only
        rw [hf]
      have hall : ∀ r ∈ sortByT dfPac, r.key = 0 := by
        intro r hr
        have := List.findIdx?_eq_none_iff.mp hf r hr
        simpa using this
      refine ⟨by rw [hjan], ?_, ?_⟩
      · intro k hk hkey _
        exact absurd (hall _ (List.getD_eq_getElem _ _ hk ▸
          List.getElem_mem hk)) hkey
      · intro _
        exact ⟨by rw [hjan], by rw [hjan], by rw [hjan], by rw [hjan]⟩
    · -- first non-zero code at position j
      have hjan : janela_exploracao dfPac =
          { explore := ((sortByT dfPac).take j).filter (fun r => r.key = 0),
            t0 := some (((sortByT dfPac).headD default).t),
            tResp := some (((sortByT dfPac).getD j default).t),
            tempoResposta := some (((sortByT dfPac).getD j default).t -
              ((sortByT dfPac).headD default).t),
            resposta := some (((sortByT dfPac).getD j default).key) } := by
        unfold janela_exploracao
        rw [if_neg hneB]
        dsimp only
        rw [hf]
      obtain ⟨hjlt, hjkey, hjmin⟩ := List.findIdx?_eq_some_iff_getElem.mp hf
      refine ⟨by rw [hjan], ?_, ?_⟩
      · intro k hk hkey hprev
        have hkj : j = k := by
          rcases Nat.lt_trichotomy j k with hlt | heq | hgt
          · exfalso
            have h0 : ((sortByT dfPac)[j]).key = 0 := by
              have := hprev j hlt
              rwa [List.getD_eq_getElem _ _ hjlt] at this
            simp [h0] at hjkey
          · exact heq
          · exfalso
            have h0 : ((sortByT dfPac).getD k default).key = 0 := by
              rw [List.getD_eq_getElem _ _ hk]
              simpa using hjmin k hgt
            exact hkey h0
        subst hkj
        exact ⟨by rw [hjan], by rw [hjan], by rw [hjan], by rw [hjan]⟩
      · intro hall
        exfalso
        have h0 : ((sortByT dfPac)[j]).key = 0 :=
          hall _ (List.getElem_mem hjlt)
        simp [h0] at hjkey

/-- The scenario from the specification: three pre-response samples and a
response sample with code 1 at `t = 0.310`. -/
def exW5 : List Row :=
  [{ pac := 0, key := 0, t := 0, x := 1/10, y := 1/10 },
   { pac := 0, key := 0, t := 1/20, x := 1/10, y := 1/10 },
   { pac := 0, key := 0, t := 3/10, x := 9/10, y := 9/10 },
   { pac := 0, key := 1, t := 31/100, x := 91/100, y := 9/10 }]

/-- Witness: `c5_janela` at the specification's scenario, with the
first-response position `k = 3` discharged concretely. -/
theorem c5_janela_witness :
    exW5 ≠ [] ∧ 3 < (sortByT exW5).length ∧
      ((sortByT exW5).getD 3 default).key ≠ 0 ∧
      ((janela_exploracao exW5).t0 =
          some (((sortByT exW5).headD default).t) ∧
        ((janela_exploracao exW5).tResp =
            some (((sortByT exW5).getD 3 default).t) ∧
          (janela_exploracao exW5).resposta =
            some (((sortByT exW5).getD 3 default).key) ∧
          (janela_exploracao exW5).explore =
            ((sortByT exW5).take 3).filter (fun r => r.key = 0) ∧
          (janela_exploracao exW5).tempoResposta =
            some (((sortByT exW5).getD 3 default).t -
              ((sortByT exW5).headD default).t))) := by
  have h := (c5_janela exW5).2 (by decide)
  exact ⟨by decide, by decide, by decide,
    h.1, h.2.1 3 (by decide) (by decide) (by decide)⟩

/-! ### C6: the minimum-fixation-duration filter -/

/-- C6: the metric calculator counts as fixations exactly the
fixation-labeled segments of duration at least `FIX_MIN_S = 0.100 s` and
averages the mean fixation duration over that filtered set only, while
counting saccade segments with no duration filter; in particular a
fixation segment of duration `0.08 s` is excluded from the filtered set
even though its label stays `fix`. -/
theorem c6_fixation_filter (sq : ℚ → ℚ) (df : List Row) (h1 : df ≠ [])
    (h2 : (janela_exploracao df).explore ≠ []) :
    (metricas_paciente_por_estimulo sq df).n_fixacoes =
        ((segmentos_por_label
            (rotular_ivt sq (janela_exploracao df).explore).1).filter
          (fun s => s.label = Label.fix ∧ FIX_MIN_S ≤ s.dur)).length ∧
      (metricas_paciente_por_estimulo sq df).duracao_media_fix_s =
        (if ((segmentos_por_label
              (rotular_ivt sq (janela_exploracao df).explore).1).filter
            (fun s => s.label = Label.fix ∧ FIX_MIN_S ≤ s.dur)).isEmpty
          then none
          else some (roundTo 4 (qmean (((segmentos_por_label
            (rotular_ivt sq (janela_exploracao df).explore).1).filter
              (fun s => s.label = Label.fix ∧ FIX_MIN_S ≤ s.dur)).map
                (fun s => s.dur))))) ∧
      (metricas_paciente_por_estimulo sq df).n_sacadas =
        ((segmentos_por_label
            (rotular_ivt sq (janela_exploracao df).explore).1).filter
          (fun s => s.label = Label.sac)).length ∧
      ∀ s ∈ segmentos_por_label
          (rotular_ivt sq (janela_exploracao df).explore).1,
        s.label = Label.fix → s.dur = 2/25 →
          s ∉ ((segmentos_por_label
              (rotular_ivt sq (janela_exploracao df).explore).1).filter
            (fun s => s.label = Label.fix ∧ FIX_MIN_S ≤ s.dur)) := by
  have hneB : ¬ (df.isEmpty = true) := by
    simp only [List.isEmpty_iff]
    exact h1
  have hexB : ¬ ((janela_exploracao df).explore.isEmpty = true) := by
    simp only [List.isEmpty_iff]
    exact h2
  refine ⟨?_, ?_, ?_, ?_⟩
  · unfold metricas_paciente_por_estimulo
    rw [if_neg hneB, if_neg hexB]
  · unfold metricas_paciente_por_estimulo
    rw [if_neg hneB, if_neg hexB]
  · unfold metricas_paciente_por_estimulo
    rw [if_neg hneB, if_neg hexB]
  · intro s _ _ hdur hmem
    rw [List.mem_filter] at hmem
    have hcond := hmem.2
    simp only [decide_eq_true_eq] at hcond
    rw [hdur] at hcond
    have h01 : ¬ (FIX_MIN_S ≤ (2/25 : ℚ)) := by norm_num [FIX_MIN_S]
    exact h01 hcond.2

/-- Witness: `c6_fixation_filter` at the specification's scenario. -/
theorem c6_fixation_filter_witness :
    exW5 ≠ [] ∧ (janela_exploracao exW5).explore ≠ [] ∧
      ((metricas_paciente_por_estimulo sqW exW5).n_fixacoes =
          ((segmentos_por_label
              (rotular_ivt sqW (janela_exploracao exW5).explore).1).filter
            (fun s => s.label = Label.fix ∧ FIX_MIN_S ≤ s.dur)).length ∧
        (metricas_paciente_por_estimulo sqW exW5).duracao_media_fix_s =
          (if ((segmentos_por_label
                (rotular_ivt sqW (janela_exploracao exW5).explore).1).filter
              (fun s => s.label = Label.fix ∧ FIX_MIN_S ≤ s.dur)).isEmpty
            then none
            else some (roundTo 4 (qmean (((segmentos_por_label
              (rotular_ivt sqW (janela_exploracao exW5).explore).1).filter
                (fun s => s.label = Label.fix ∧ FIX_MIN_S ≤ s.dur)).map
                  (fun s => s.dur))))) ∧
        (metricas_paciente_por_estimulo sqW exW5).n_sacadas =
          ((segmentos_por_label
              (rotular_ivt sqW (janela_exploracao exW5).explore).1).filter
            (fun s => s.label = Label.sac)).length ∧
        ∀ s ∈ segmentos_por_label
            (rotular_ivt sqW (janela_exploracao exW5).explore).1,
          s.label = Label.fix → s.dur = 2/25 →
            s ∉ ((segmentos_por_label
                (rotular_ivt sqW (janela_exploracao exW5).explore).1).filter
              (fun s => s.label = Label.fix ∧ FIX_MIN_S ≤ s.dur))) :=
  ⟨by decide, by decide, c6_fixation_filter sqW exW5 (by decide) (by decide)⟩

/-! ### C7: normalization bounds and dispersion area -/

theorem normGrupo_coord_bounds {g : List Row} {r : Row} (h : r ∈ normGrupo g) :
    (0 ≤ r.x ∧ r.x ≤ 1) ∧ (0 ≤ r.y ∧ r.y ≤ 1) := by
  unfold normGrupo at h
  simp only [List.mem_map] at h
  obtain ⟨a, ha, rfl⟩ := h
  simp only [normGrupoF]
  constructor
  · by_cases hx : (1 : ℚ)/10 ^ 10 <
        qmax (g.map (fun r => r.x)) - qmin (g.map (fun r => r.x))
    · rw [if_pos hx]
      have hmem : a.x ∈ g.map (fun r => r.x) := List.mem_map_of_mem _ ha
      have h1 : qmin (g.map (fun r => r.x)) ≤ a.x := qmin_le_of_mem hmem
      have h2 : a.x ≤ qmax (g.map (fun r => r.x)) := le_qmax_of_mem hmem
      have hpos : 0 < qmax (g.map (fun r => r.x)) - qmin (g.map (fun r => r.x)) :=
        lt_trans (by norm_num) hx
      constructor
      · exact div_nonneg (sub_nonneg.mpr h1) (le_of_lt hpos)
      · rw [div_le_one hpos]
        linarith
    · rw [if_neg hx]
      norm_num
  · by_cases hy : (1 : ℚ)/10 ^ 10 <
        qmax (g.map (fun r => r.y)) - qmin (g.map (fun r => r.y))
    · rw [if_pos hy]
      have hmem : a.y ∈ g.map (fun r => r.y) := List.mem_map_of_mem _ ha
      have h1 : qmin (g.map (fun r => r.y)) ≤ a.y := qmin_le_of_mem hmem
      have h2 : a.y ≤ qmax (g.map (fun r => r.y)) := le_qmax_of_mem hmem
      have hpos : 0 < qmax (g.map (fun r => r.y)) - qmin (g.map (fun r => r.y)) :=
        lt_trans (by norm_num) hy
      constructor
      · exact div_nonneg (sub_nonneg.mpr h1) (le_of_lt hpos)
      · rw [div_le_one hpos]
        linarith
    · rw [if_neg hy]
      norm_num

theorem normalizar_coord_bounds (df : List Row) :
    ∀ r ∈ normalizar_coordenadas df,
      (0 ≤ r.x ∧ r.x ≤ 1) ∧ (0 ≤ r.y ∧ r.y ≤ 1) := by
  intro r hr
  unfold normalizar_coordenadas at hr
  by_cases hemp : (!NORMALIZAR_COORDS || df.isEmpty) = true
  · rw [if_pos hemp] at hr
    have hdf : df.isEmpty = true := by
      simpa [NORMALIZAR_COORDS] using hemp
    rw [List.isEmpty_iff.mp hdf] at hr
    cases hr
  · rw [if_neg hemp] at hr
    by_cases hm : 1 < numPacs df
    · rw [if_pos hm] at hr
      simp only [List.mem_flatMap] at hr
      obtain ⟨p, -, hrp⟩ := hr
      exact normGrupo_coord_bounds hrp
    · rw [if_neg hm] at hr
      exact normGrupo_coord_bounds hr

theorem dispersao_bounds {w : List Row}
    (hb : ∀ r ∈ w, (0 ≤ r.x ∧ r.x ≤ 1) ∧ (0 ≤ r.y ∧ r.y ≤ 1)) :
    0 ≤ dispersao_area_bb w ∧ dispersao_area_bb w ≤ 1 := by
  unfold dispersao_area_bb
  by_cases hl : w.length < 2
  · rw [if_pos hl]
    norm_num
  · rw [if_neg hl]
    have hwne : w ≠ [] := by
      intro hw
      rw [hw] at hl
      simp at hl
    have hxne : w.map (fun r => r.x) ≠ [] := by
      simpa using hwne
    have hyne : w.map (fun r => r.y) ≠ [] := by
      simpa using hwne
    have hx01 : ∀ v ∈ w.map (fun r => r.x), 0 ≤ v ∧ v ≤ 1 := by
      intro v hv
      simp only [List.mem_map] at hv
      obtain ⟨a, ha, rfl⟩ := hv
      exact (hb a ha).1
    have hy01 : ∀ v ∈ w.map (fun r => r.y), 0 ≤ v ∧ v ≤ 1 := by
      intro v hv
      simp only [List.mem_map] at hv
      obtain ⟨a, ha, rfl⟩ := hv
      exact (hb a ha).2
    have hx1 : 0 ≤ qmax (w.map (fun r => r.x)) - qmin (w.map (fun r => r.x)) :=
      sub_nonneg.mpr (qmin_le_of_mem (qmax_mem hxne))
    have hy1 : 0 ≤ qmax (w.map (fun r => r.y)) - qmin (w.map (fun r => r.y)) :=
      sub_nonneg.mpr (qmin_le_of_mem (qmax_mem hyne))
    have hx2 : qmax (w.map (fun r => r.x)) - qmin (w.map (fun r => r.x)) ≤ 1 := by
      have ha : qmax (w.map (fun r => r.x)) ≤ 1 :=
        qmax_le hxne (fun v hv => (hx01 v hv).2)
      have hb2 : 0 ≤ qmin (w.map (fun r => r.x)) :=
        le_qmin hxne (fun v hv => (hx01 v hv).1)
      linarith
    have hy2 : qmax (w.map (fun r => r.y)) - qmin (w.map (fun r => r.y)) ≤ 1 := by
      have ha : qmax (w.map (fun r => r.y)) ≤ 1 :=
        qmax_le hyne (fun v hv => (hy01 v hv).2)
      have hb2 : 0 ≤ qmin (w.map (fun r => r.y)) :=
        le_qmin hyne (fun v hv => (hy01 v hv).1)
      linarith
    exact ⟨mul_nonneg hx1 hy1, mul_le_one₀ hx2 hy1 hy2⟩

/-- C7: after per-subject min-max normalization every coordinate lies in
`[0, 1]` (and a coordinate whose per-subject range is below `1e-10` is set
to the constant `1/2`), so the bounding-box dispersion area of any window
drawn from the normalized table lies in `[0, 1]`, and is `0` for windows
with fewer than 2 points. -/
theorem c7_normalization_dispersion (df : List Row) (h : df ≠ []) :
    (∀ r ∈ normalizar_coordenadas df,
        0 ≤ r.x ∧ r.x ≤ 1 ∧ 0 ≤ r.y ∧ r.y ≤ 1) ∧
      (∀ g : List Row, ∀ r ∈ normGrupo g,
        (qmax (g.map (fun a => a.x)) - qmin (g.map (fun a => a.x)) <
            1/10 ^ 10 → r.x = 1/2) ∧
        (qmax (g.map (fun a => a.y)) - qmin (g.map (fun a => a.y)) <
            1/10 ^ 10 → r.y = 1/2)) ∧
      (∀ w : List Row, (∀ r ∈ w, r ∈ normalizar_coordenadas df) →
        0 ≤ dispersao_area_bb w ∧ dispersao_area_bb w ≤ 1) ∧
      (∀ w : List Row, w.length < 2 → dispersao_area_bb w = 0) := by
  refine ⟨?_, ?_, ?_, ?_⟩
  · intro r hr
    obtain ⟨⟨hx0, hx1⟩, hy0, hy1⟩ := normalizar_coord_bounds df r hr
    exact ⟨hx0, hx1, hy0, hy1⟩
  · intro g r hr
    unfold normGrupo at hr
    simp only [List.mem_map] at hr
    obtain ⟨a, -, rfl⟩ := hr
    simp only [normGrupoF]
    constructor
    · intro hlt
      rw [if_neg (by intro hc; linarith)]
    · intro hlt
      rw [if_neg (by intro hc; linarith)]
  · intro w hw
    exact dispersao_bounds (fun r hr => normalizar_coord_bounds df r (hw r hr))
  · intro w hlt
    unfold dispersao_area_bb
    rw [if_pos hlt]

/-- Witness: `c7_normalization_dispersion` at a concrete 2-row table. -/
theorem c7_normalization_dispersion_witness :
    exW1 ≠ [] ∧
      ((∀ r ∈ normalizar_coordenadas exW1,
          0 ≤ r.x ∧ r.x ≤ 1 ∧ 0 ≤ r.y ∧ r.y ≤ 1) ∧
        (∀ g : List Row, ∀ r ∈ normGrupo g,
          (qmax (g.map (fun a => a.x)) - qmin (g.map (fun a => a.x)) <
              1/10 ^ 10 → r.x = 1/2) ∧
          (qmax (g.map (fun a => a.y)) - qmin (g.map (fun a => a.y)) <
              1/10 ^ 10 → r.y = 1/2)) ∧
        (∀ w : List Row, (∀ r ∈ w, r ∈ normalizar_coordenadas exW1) →
          0 ≤ dispersao_area_bb w ∧ dispersao_area_bb w ≤ 1) ∧
        (∀ w : List Row, w.length < 2 → dispersao_area_bb w = 0)) :=
  ⟨by decide, c7_normalization_dispersion exW1 (by decide)⟩

/-! ### C9: inter-group statistics with one empty group -/

/-- C9 (amended): when for some stimulus and metric one group has zero
non-missing samples and the other at least one, the comparison row for
that stimulus and metric is still emitted — the non-empty group's mean is
populated, its std is populated exactly when that group has at least two
samples (with exactly one sample the sample std is undefined), the empty
group's fields and the rank-test statistic and p-value are all undefined —
and, the function being total, nothing is raised. -/
theorem c9_one_empty_group (sq : ℚ → ℚ) (scipyOk : Bool)
    (mw : List ℚ → List ℚ → Option (ℚ × ℚ)) (metsCtrl metsAfa : List MetRow)
    (s m : ℕ) (hm : m < NUM_METRICAS) :
    ((metsCtrl.filter (fun r => r.stim = s)).filterMap
          (fun r => r.vals.getD m none) = [] →
        (metsAfa.filter (fun r => r.stim = s)).filterMap
          (fun r => r.vals.getD m none) ≠ [] →
        { stim := s, metrica := m, controleMedia := none,
          controleDesvio := none,
          afasicoMedia := some (roundTo 6 (qmean
            ((metsAfa.filter (fun r => r.stim = s)).filterMap
              (fun r => r.vals.getD m none)))),
          afasicoDesvio :=
            if 1 < ((metsAfa.filter (fun r => r.stim = s)).filterMap
                (fun r => r.vals.getD m none)).length
            then some (roundTo 6 (sq (sampleVar
              ((metsAfa.filter (fun r => r.stim = s)).filterMap
                (fun r => r.vals.getD m none)))))
            else none,
          mannWhitneyU := none, pValue := none } ∈
          estatisticas_inter_grupo sq scipyOk mw metsCtrl metsAfa) ∧
      ((metsAfa.filter (fun r => r.stim = s)).filterMap
          (fun r => r.vals.getD m none) = [] →
        (metsCtrl.filter (fun r => r.stim = s)).filterMap
          (fun r => r.vals.getD m none) ≠ [] →
        { stim := s, metrica := m,
          controleMedia := some (roundTo 6 (qmean
            ((metsCtrl.filter (fun r => r.stim = s)).filterMap
              (fun r => r.vals.getD m none)))),
          controleDesvio :=
            if 1 < ((metsCtrl.filter (fun r => r.stim = s)).filterMap
                (fun r => r.vals.getD m none)).length
            then some (roundTo 6 (sq (sampleVar
              ((metsCtrl.filter (fun r => r.stim = s)).filterMap
                (fun r => r.vals.getD m none)))))
            else none,
          afasicoMedia := none, afasicoDesvio := none,
          mannWhitneyU := none, pValue := none } ∈
          estatisticas_inter_grupo sq scipyOk mw metsCtrl metsAfa) := by
  constructor
  · intro hC hA
    have hfa : metsAfa.filter (fun r => r.stim = s) ≠ [] := by
      intro hc
      apply hA
      rw [hc]
      rfl
    obtain ⟨r0, hr0⟩ := List.exists_mem_of_ne_nil _ hfa
    obtain ⟨hr0m, hr0s⟩ := List.mem_filter.mp hr0
    have hr0s' : r0.stim = s := by simpa using hr0s
    have hsmem : s ∈ ((metsCtrl.map (fun r => r.stim)) ++
        (metsAfa.map (fun r => r.stim))).dedup.insertionSort (· ≤ ·) := by
      rw [(List.perm_insertionSort _ _).mem_iff, List.mem_dedup,
        List.mem_append]
      exact Or.inr (hr0s' ▸ List.mem_map_of_mem _ hr0m)
    have hlenA : 0 < ((metsAfa.filter (fun r => r.stim = s)).filterMap
        (fun r => r.vals.getD m none)).length := List.length_pos.mpr hA
    refine List.mem_flatMap.mpr ⟨s, hsmem, ?_⟩
    refine List.mem_filterMap.mpr ⟨m, List.mem_range.mpr hm, ?_⟩
    dsimp only
    rw [hC]
    rw [if_neg (by
      rintro ⟨-, hc2⟩
      rw [hc2] at hlenA
      simp at hlenA)]
    have e1 : ¬ (0 < ([] : List ℚ).length) := by simp
    have e2 : ¬ (1 < ([] : List ℚ).length) := by simp
    have e3 : ¬ (scipyOk ∧ 0 < ([] : List ℚ).length ∧
        0 < ((metsAfa.filter (fun r => r.stim = s)).filterMap
          (fun r => r.vals.getD m none)).length) := by
      rintro ⟨-, hc, -⟩
      simp at hc
    rw [if_neg e1, if_neg e2, if_pos hlenA, if_neg e3, if_neg e3]
  · intro hA hC
    have hfc : metsCtrl.filter (fun r => r.stim = s) ≠ [] := by
      intro hc
      apply hC
      rw [hc]
      rfl
    obtain ⟨r0, hr0⟩ := List.exists_mem_of_ne_nil _ hfc
    obtain ⟨hr0m, hr0s⟩ := List.mem_filter.mp hr0
    have hr0s' : r0.stim = s := by simpa using hr0s
    have hsmem : s ∈ ((metsCtrl.map (fun r => r.stim)) ++
        (metsAfa.map (fun r => r.stim))).dedup.insertionSort (· ≤ ·) := by
      rw [(List.perm_insertionSort _ _).mem_iff, List.mem_dedup,
        List.mem_append]
      exact Or.inl (hr0s' ▸ List.mem_map_of_mem _ hr0m)
    have hlenC : 0 < ((metsCtrl.filter (fun r => r.stim = s)).filterMap
        (fun r => r.vals.getD m none)).length := List.length_pos.mpr hC
    refine List.mem_flatMap.mpr ⟨s, hsmem, ?_⟩
    refine List.mem_filterMap.mpr ⟨m, List.mem_range.mpr hm, ?_⟩
    dsimp only
    rw [hA]
    rw [if_neg (by
      rintro ⟨hc1, -⟩
      rw [hc1] at hlenC
      simp at hlenC)]
    have e1 : ¬ (0 < ([] : List ℚ).length) := by simp
    have e2 : ¬ (1 < ([] : List ℚ).length) := by simp
    have e3 : ¬ (scipyOk ∧
        0 < ((metsCtrl.filter (fun r => r.stim = s)).filterMap
          (fun r => r.vals.getD m none)).length ∧
        0 < ([] : List ℚ).length) := by
      rintro ⟨-, -, hc⟩
      simp at hc
    rw [if_pos hlenC, if_neg e1, if_neg e2, if_neg e3, if_neg e3]

/-- Stand-in for the external `scipy.stats.mannwhitneyu` call in closed
witness statements (the theorems hold for every `mw`). -/
def mwW : List ℚ → List ℚ → Option (ℚ × ℚ) := fun _ _ => some (0, 0)

/-- A one-row control metric table: stimulus 0, one non-missing value for
the first compared metric. -/
def metsW : List MetRow :=
  [{ stim := 0, vals := [some 1, none, none, none, none, none] }]

/-- Witness: `c9_one_empty_group` with one control sample and an empty
aphasic table, at stimulus 0 and metric 0. -/
theorem c9_one_empty_group_witness :
    (0 < NUM_METRICAS ∧
        (([] : List MetRow).filter (fun r => r.stim = 0)).filterMap
          (fun r => r.vals.getD 0 none) = [] ∧
        (metsW.filter (fun r => r.stim = 0)).filterMap
          (fun r => r.vals.getD 0 none) ≠ []) ∧
      { stim := 0, metrica := 0,
        controleMedia := some (roundTo 6 (qmean
          ((metsW.filter (fun r => r.stim = 0)).filterMap
            (fun r => r.vals.getD 0 none)))),
        controleDesvio :=
          if 1 < ((metsW.filter (fun r => r.stim = 0)).filterMap
              (fun r => r.vals.getD 0 none)).length
          then some (roundTo 6 (sqW (sampleVar
            ((metsW.filter (fun r => r.stim = 0)).filterMap
              (fun r => r.vals.getD 0 none)))))
          else none,
        afasicoMedia := none, afasicoDesvio := none,
        mannWhitneyU := none, pValue := none } ∈
        estatisticas_inter_grupo sqW true mwW metsW [] :=
  ⟨⟨by decide, by decide, by decide⟩,
    (c9_one_empty_group sqW true mwW metsW [] 0 0 (by decide)).2
      (by decide) (by decide)⟩

/-- Counterexample to C9 as stated: with exactly one control sample and no
aphasic samples, the comparison row for stimulus 0 and metric 0 is emitted
with the control mean populated but the control std `None` (the sample std
needs at least two values), so the non-empty group's "mean/std" are not
both populated. -/
theorem c9_counterexample :
    ((metsW.filter (fun r => r.stim = 0)).filterMap
        (fun r => r.vals.getD 0 none)).length = 1 ∧
      (estatisticas_inter_grupo sqW true mwW metsW []).map
          (fun r => (r.stim, r.metrica, r.controleMedia, r.controleDesvio)) =
        [(0, 0, some 1, none)] := by decide

/-! ### C10: metrics on an empty exploration window -/

/-- C10: for a non-empty subject-stimulus table whose exploration window is
empty, the metric calculator returns zero saccade and fixation counts,
dispersion 0, undefined mean durations, the response code and (rounded)
response time passed through from the extractor, and an undefined
`limiar_vt`; in particular the reported threshold is not the velocity
floor. -/
theorem c10_empty_explore (sq : ℚ → ℚ) (df : List Row) (h1 : df ≠ [])
    (h2 : (janela_exploracao df).explore = []) :
    metricas_paciente_por_estimulo sq df =
      { resposta := (janela_exploracao df).resposta,
        tempo_resposta_s := (janela_exploracao df).tempoResposta.map (roundTo 3),
        n_sacadas := 0, tempo_medio_sacada_s := none, n_fixacoes := 0,
        duracao_media_fix_s := none, dispersao_area := 0,
        limiar_vt := none } ∧
      (metricas_paciente_por_estimulo sq df).limiar_vt ≠ some VEL_MIN := by
  have hne : ¬ (df.isEmpty = true) := by
    simp only [List.isEmpty_iff]
    exact h1
  have hex : (janela_exploracao df).explore.isEmpty = true := by
    rw [h2]; rfl
  have key : metricas_paciente_por_estimulo sq df =
      { resposta := (janela_exploracao df).resposta,
        tempo_resposta_s := (janela_exploracao df).tempoResposta.map (roundTo 3),
        n_sacadas := 0, tempo_medio_sacada_s := none, n_fixacoes := 0,
        duracao_media_fix_s := none, dispersao_area := 0,
        limiar_vt := none } := by
    unfold metricas_paciente_por_estimulo
    rw [if_neg hne, if_pos hex]
  refine ⟨key, ?_⟩
  rw [key]
  simp

/-- A concrete table whose very first sample carries a non-zero response
code, so its exploration window is empty. -/
def dfW10 : List Row := [{ pac := 0, key := 1, t := 0, x := 1, y := 2 }]

/-- Witness: `c10_empty_explore` applied to a concrete one-row table. -/
theorem c10_empty_explore_witness :
    dfW10 ≠ [] ∧ (janela_exploracao dfW10).explore = [] ∧
      (metricas_paciente_por_estimulo sqW dfW10 =
        { resposta := (janela_exploracao dfW10).resposta,
          tempo_resposta_s :=
            (janela_exploracao dfW10).tempoResposta.map (roundTo 3),
          n_sacadas := 0, tempo_medio_sacada_s := none, n_fixacoes := 0,
          duracao_media_fix_s := none, dispersao_area := 0,
          limiar_vt := none } ∧
        (metricas_paciente_por_estimulo sqW dfW10).limiar_vt ≠
          some VEL_MIN) :=
  ⟨by decide, by decide, c10_empty_explore sqW dfW10 (by decide) (by decide)⟩

/-! ### C8: per-subject equivalence of the grouped transforms

The lemmas below show that the multi-subject code paths of
`limpar_e_outliers` and `normalizar_coordenadas` act on each subject's rows
exactly as the single-subject paths act on that subject's rows alone. -/

theorem filter_comm' {α : Type} (f g : α → Bool) (l : List α) :
    (l.filter f).filter g = (l.filter g).filter f := by
  rw [List.filter_filter, List.filter_filter]
  apply List.filter_congr
  intro x _
  rw [Bool.and_comm]

theorem orderedInsert_of_forall_rel {α : Type} (r : α → α → Prop)
    [DecidableRel r] (x : α) (m : List α) (h : ∀ z ∈ m, r x z) :
    m.orderedInsert r x = x :: m := by
  cases m with
  | nil => rfl
  | cons z t =>
    rw [List.orderedInsert, if_pos (h z (List.mem_cons_self z t))]

theorem filter_orderedInsert {α : Type} (r : α → α → Prop) [DecidableRel r]
    [IsTotal α r] [IsTrans α r] (q : α → Bool) (x : α) (l : List α)
    (hl : l.Sorted r) :
    (l.orderedInsert r x).filter q =
      if q x then (l.filter q).orderedInsert r x else l.filter q := by
  induction l with
  | nil =>
    by_cases hq : q x
    · simp [List.orderedInsert, hq]
    · simp [List.orderedInsert, hq]
  | cons y t ih =>
    obtain ⟨hyt, htsorted⟩ := List.sorted_cons.mp hl
    by_cases hxy : r x y
    · rw [List.orderedInsert_of_le r t hxy]
      by_cases hqx : q x
      · rw [if_pos hqx, List.filter_cons_of_pos (by simpa using hqx)]
        by_cases hqy : q y
        · rw [List.filter_cons_of_pos (by simpa using hqy)]
          exact (List.orderedInsert_of_le r (t.filter q) hxy).symm
        · rw [List.filter_cons_of_neg (by simpa using hqy)]
          exact (orderedInsert_of_forall_rel r x (t.filter q)
            (fun z hz => Trans.trans hxy (hyt z (List.mem_of_mem_filter hz)))).symm
      · rw [if_neg hqx, List.filter_cons_of_neg (by simpa using hqx)]
    · simp only [List.orderedInsert]
      rw [if_neg hxy]
      by_cases hqy : q y
      · rw [List.filter_cons_of_pos (by simpa using hqy), ih htsorted]
        by_cases hqx : q x
        · rw [if_pos hqx, if_pos hqx,
            List.filter_cons_of_pos (by simpa using hqy)]
          simp only [List.orderedInsert]
          rw [if_neg hxy]
        · rw [if_neg hqx, if_neg hqx,
            List.filter_cons_of_pos (by simpa using hqy)]
      · rw [List.filter_cons_of_neg (by simpa using hqy), ih htsorted,
          List.filter_cons_of_neg (by simpa using hqy)]

theorem filter_insertionSort {α : Type} (r : α → α → Prop) [DecidableRel r]
    [IsTotal α r] [IsTrans α r] (q : α → Bool) (l : List α) :
    (l.insertionSort r).filter q = (l.filter q).insertionSort r := by
  induction l with
  | nil => rfl
  | cons a t ih =>
    rw [List.insertionSort,
      filter_orderedInsert r q a (t.insertionSort r) (List.sorted_insertionSort r t)]
    by_cases hqa : q a
    · rw [if_pos hqa, List.filter_cons_of_pos (by simpa using hqa),
        List.insertionSort, ih]
    · rw [if_neg hqa, List.filter_cons_of_neg (by simpa using hqa), ih]

theorem filterPac_sortPacT (p : ℕ) (l : List Row) :
    filterPac p (sortPacT l) = sortPacT (filterPac p l) :=
  filter_insertionSort pacTLe _ l

/-! Membership facts for the duplicate-timestamp removers: both are
sublists of their input. -/

theorem dropPlainAux_sublist :
    ∀ (prev : Option ℚ) (l : List Row), List.Sublist (dropPlainAux prev l) l := by
  intro prev l
  induction l generalizing prev with
  | nil => exact List.Sublist.refl []
  | cons b t ih =>
    show List.Sublist ((match prev with
      | none => [b]
      | some tp => if b.t - tp = 0 then [] else [b]) ++
        dropPlainAux (some b.t) t) (b :: t)
    rcases prev with - | tp
    · exact (ih (some b.t)).cons₂ b
    · show List.Sublist ((if b.t - tp = 0 then [] else [b]) ++
        dropPlainAux (some b.t) t) (b :: t)
      by_cases hc : b.t - tp = 0
      · rw [if_pos hc]
        exact ((ih (some b.t)).cons b)
      · rw [if_neg hc]
        exact (ih (some b.t)).cons₂ b

theorem mem_dropPlainAux {x : Row} (prev : Option ℚ) (l : List Row)
    (h : x ∈ dropPlainAux prev l) : x ∈ l :=
  (dropPlainAux_sublist prev l).subset h

theorem dropDupGroupedGo_sublist :
    ∀ (seen : List (ℕ × ℚ)) (l : List Row),
      List.Sublist (dropDupGroupedGo seen l) l := by
  intro seen l
  induction l generalizing seen with
  | nil => exact List.Sublist.refl []
  | cons b t ih =>
    show List.Sublist ((match lookupT b.pac seen with
      | none => [b]
      | some tp => if b.t - tp = 0 then [] else [b]) ++
        dropDupGroupedGo ((b.pac, b.t) :: seen) t) (b :: t)
    rcases lookupT b.pac seen with - | tp
    · exact (ih _).cons₂ b
    · show List.Sublist ((if b.t - tp = 0 then [] else [b]) ++
        dropDupGroupedGo ((b.pac, b.t) :: seen) t) (b :: t)
      by_cases hc : b.t - tp = 0
      · rw [if_pos hc]
        exact ((ih _).cons b)
      · rw [if_neg hc]
        exact (ih _).cons₂ b

theorem mem_dropDupGroupedGo {x : Row} (seen : List (ℕ × ℚ)) (l : List Row)
    (h : x ∈ dropDupGroupedGo seen l) : x ∈ l :=
  (dropDupGroupedGo_sublist seen l).subset h

theorem lookupT_cons_ne (p q : ℕ) (t : ℚ) (seen : List (ℕ × ℚ)) (h : q ≠ p) :
    lookupT p ((q, t) :: seen) = lookupT p seen := by
  rw [lookupT, if_neg h]

theorem lookupT_cons_self (p : ℕ) (t : ℚ) (seen : List (ℕ × ℚ)) :
    lookupT p ((p, t) :: seen) = some t := by
  rw [lookupT, if_pos rfl]

/-- Restricting the grouped duplicate remover to one subject's rows gives
the plain remover, started at the last time recorded for that subject. -/
theorem filterPac_dropDupGroupedGo (p : ℕ) :
    ∀ (l : List Row) (seen : List (ℕ × ℚ)),
      filterPac p (dropDupGroupedGo seen l) =
        dropPlainAux (lookupT p seen) (filterPac p l) := by
  intro l
  induction l with
  | nil => intro seen; rfl
  | cons b t ih =>
    intro seen
    have hgo : dropDupGroupedGo seen (b :: t) =
        (match lookupT b.pac seen with
          | none => [b]
          | some tp => if b.t - tp = 0 then [] else [b]) ++
          dropDupGroupedGo ((b.pac, b.t) :: seen) t := rfl
    rw [hgo]
    unfold filterPac
    rw [List.filter_append]
    by_cases hbp : b.pac = p
    · subst hbp
      rw [List.filter_cons_of_pos (by simp)]
      have hrhs : dropPlainAux (lookupT b.pac seen)
          (b :: List.filter (fun r => decide (r.pac = b.pac)) t) =
        (match lookupT b.pac seen with
          | none => [b]
          | some tp => if b.t - tp = 0 then [] else [b]) ++
          dropPlainAux (some b.t)
            (List.filter (fun r => decide (r.pac = b.pac)) t) := rfl
      rw [hrhs]
      congr 1
      · rcases lookupT b.pac seen with - | tp
        · simp
        · by_cases hc : b.t - tp = 0
          · simp [hc]
          · simp [hc]
      · have hstep := ih ((b.pac, b.t) :: seen)
        rw [lookupT_cons_self] at hstep
        exact hstep
    · rw [List.filter_cons_of_neg (by simpa using hbp)]
      have hchunk : List.filter (fun r => decide (r.pac = p))
          (match lookupT b.pac seen with
            | none => [b]
            | some tp => if b.t - tp = 0 then [] else [b]) = [] := by
        rcases lookupT b.pac seen with - | tp
        · simp [hbp]
        · by_cases hc : b.t - tp = 0
          · simp [hc]
          · simp [hc, hbp]
      rw [hchunk, List.nil_append]
      have hstep := ih ((b.pac, b.t) :: seen)
      rw [lookupT_cons_ne p b.pac b.t seen hbp] at hstep
      exact hstep

/-! Subject-count utilities. -/

theorem mem_two_of_length_le_one {α : Type} {m : List α} (h : m.length ≤ 1)
    {a b : α} (ha : a ∈ m) (hb : b ∈ m) : a = b := by
  cases m with
  | nil => cases ha
  | cons x t =>
    cases t with
    | nil =>
      rcases List.mem_singleton.mp ha with rfl
      rcases List.mem_singleton.mp hb with rfl
      rfl
    | cons y u => simp at h

theorem numPacs_le_one_pac_eq {l : List Row} (h : numPacs l ≤ 1) :
    ∀ a ∈ l, ∀ b ∈ l, a.pac = b.pac := by
  intro a ha b hb
  have ha' : a.pac ∈ (l.map (fun r => r.pac)).dedup :=
    List.mem_dedup.mpr (List.mem_map_of_mem _ ha)
  have hb' : b.pac ∈ (l.map (fun r => r.pac)).dedup :=
    List.mem_dedup.mpr (List.mem_map_of_mem _ hb)
  exact mem_two_of_length_le_one h ha' hb'

theorem mem_filterPac {r : Row} {p : ℕ} {l : List Row} :
    r ∈ filterPac p l ↔ r ∈ l ∧ r.pac = p := by
  unfold filterPac
  rw [List.mem_filter]
  simp

theorem filterPac_eq_self {l : List Row} {p : ℕ} (h : ∀ r ∈ l, r.pac = p) :
    filterPac p l = l :=
  List.filter_eq_self.mpr (fun r hr => by simpa using h r hr)

theorem filterPac_eq_nil' {l : List Row} {p : ℕ} (h : ∀ r ∈ l, r.pac ≠ p) :
    filterPac p l = [] :=
  List.filter_eq_nil_iff.mpr (fun r hr => by simpa using h r hr)

theorem numPacs_filterPac_le_one (p : ℕ) (l : List Row) :
    numPacs (filterPac p l) ≤ 1 := by
  have hall : ∀ q ∈ (filterPac p l).map (fun r => r.pac), q = p := by
    intro q hq
    simp only [List.mem_map] at hq
    obtain ⟨r, hr, rfl⟩ := hq
    exact (mem_filterPac.mp hr).2
  show ((filterPac p l).map (fun r => r.pac)).dedup.length ≤ 1
  rcases hd : ((filterPac p l).map (fun r => r.pac)).dedup with - | ⟨x, t⟩
  · rw [hd]
    simp
  · cases t with
    | nil =>
      rw [hd]
      simp
    | cons y u =>
      exfalso
      have hnd := List.nodup_dedup ((filterPac p l).map (fun r => r.pac))
      rw [hd] at hnd
      have hxm : x ∈ ((filterPac p l).map (fun r => r.pac)).dedup := by
        rw [hd]
        exact List.mem_cons_self _ _
      have hym : y ∈ ((filterPac p l).map (fun r => r.pac)).dedup := by
        rw [hd]
        exact List.mem_cons_of_mem _ (List.mem_cons_self _ _)
      have hx : x = p := hall _ (List.mem_dedup.mp hxm)
      have hy : y = p := hall _ (List.mem_dedup.mp hym)
      have hxy : x ≠ y := by
        intro he
        exact (List.nodup_cons.mp hnd).1 (he ▸ List.mem_cons_self _ _)
      exact hxy (hx.trans hy.symm)

/-! The cleaning stages commute with restriction to one subject. -/

theorem filterPac_filter (p : ℕ) (g : Row → Bool) (l : List Row) :
    filterPac p (l.filter g) = (filterPac p l).filter g := by
  unfold filterPac
  exact filter_comm' g _ l

theorem limparDf1_filterPac (p : ℕ) (df : List Row) :
    filterPac p (limparDf1 df) = limparDf1 (filterPac p df) := by
  unfold limparDf1
  exact filterPac_filter p _ df

theorem limparDf2_filterPac (p : ℕ) (df : List Row) :
    filterPac p (limparDf2 df) = limparDf2 (filterPac p df) := by
  unfold limparDf2
  rw [filterPac_sortPacT, limparDf1_filterPac]

theorem limparDf3_filterPac (p : ℕ) (df : List Row) :
    filterPac p (limparDf3 df) = limparDf3 (filterPac p df) := by
  unfold limparDf3
  rw [← limparDf2_filterPac p df]
  have hle : numPacs (filterPac p (limparDf2 df)) ≤ 1 :=
    numPacs_filterPac_le_one p _
  rw [if_neg (by omega : ¬ 1 < numPacs (filterPac p (limparDf2 df)))]
  by_cases hm : 1 < numPacs (limparDf2 df)
  · rw [if_pos hm, filterPac_filter]
    apply List.filter_congr
    intro r hr
    have hrp : r.pac = p := (mem_filterPac.mp hr).2
    rw [hrp]
  · rw [if_neg hm]
    by_cases hpin : filterPac p (limparDf2 df) = []
    · rw [hpin, filterPac_filter, hpin]
      rfl
    · have hallp : ∀ r ∈ limparDf2 df, r.pac = p := by
        obtain ⟨r0, hr0⟩ := List.exists_mem_of_ne_nil _ hpin
        obtain ⟨hr0m, hr0p⟩ := mem_filterPac.mp hr0
        intro r hr
        rw [numPacs_le_one_pac_eq (le_of_not_lt hm) r hr r0 hr0m, hr0p]
      rw [filterPac_eq_self hallp]
      apply filterPac_eq_self
      intro r hr
      exact hallp r (List.mem_of_mem_filter hr)

theorem mem_limpar {r : Row} {df : List Row}
    (h : r ∈ limpar_e_outliers df) : r ∈ df := by
  have hmem3 : ∀ {x : Row}, x ∈ limparDf3 df → x ∈ df := by
    intro x hx
    have hx2 : x ∈ limparDf2 df := by
      unfold limparDf3 at hx
      by_cases hm : 1 < numPacs (limparDf2 df)
      · rw [if_pos hm] at hx
        exact List.mem_of_mem_filter hx
      · rw [if_neg hm] at hx
        exact List.mem_of_mem_filter hx
    have hx1 : x ∈ limparDf1 df := by
      unfold limparDf2 sortPacT at hx2
      exact (List.perm_insertionSort pacTLe _).mem_iff.mp hx2
    exact List.mem_of_mem_filter hx1
  unfold limpar_e_outliers at h
  by_cases hdf : df.isEmpty = true
  · rw [if_pos hdf] at h
    exact h
  · rw [if_neg hdf] at h
    by_cases hm : 1 < numPacs (limparDf3 df)
    · rw [if_pos hm] at h
      exact hmem3 (mem_dropDupGroupedGo _ _ h)
    · rw [if_neg hm] at h
      exact hmem3 (mem_dropPlainAux _ _ h)

/-- The cleaning/outlier filter acts on each subject's rows exactly as it
acts on that subject's rows alone. -/
theorem limpar_per_subject (df : List Row) (p : ℕ) :
    filterPac p (limpar_e_outliers df) = limpar_e_outliers (filterPac p df) := by
  by_cases hdf : df.isEmpty = true
  · have hd : df = [] := List.isEmpty_iff.mp hdf
    subst hd
    rfl
  · by_cases hp : filterPac p df = []
    · rw [hp]
      have hR : limpar_e_outliers [] = [] := rfl
      rw [hR]
      apply filterPac_eq_nil'
      intro r hr hrp
      have hrdf : r ∈ df := mem_limpar hr
      have hmem : r ∈ filterPac p df := mem_filterPac.mpr ⟨hrdf, hrp⟩
      rw [hp] at hmem
      cases hmem
    · have hpne : ¬ ((filterPac p df).isEmpty = true) := by
        simp only [List.isEmpty_iff]
        exact hp
      unfold limpar_e_outliers
      rw [if_neg hdf, if_neg hpne]
      have h3 : filterPac p (limparDf3 df) = limparDf3 (filterPac p df) :=
        limparDf3_filterPac p df
      have hle : numPacs (limparDf3 (filterPac p df)) ≤ 1 := by
        rw [← h3]
        exact numPacs_filterPac_le_one p _
      rw [if_neg (by omega : ¬ 1 < numPacs (limparDf3 (filterPac p df)))]
      by_cases hm : 1 < numPacs (limparDf3 df)
      · rw [if_pos hm, ← h3]
        unfold dropDupGrouped dropDupPlain
        rw [filterPac_dropDupGroupedGo]
        rfl
      · rw [if_neg hm, ← h3]
        by_cases h3p : filterPac p (limparDf3 df) = []
        · rw [h3p]
          have hnil : ∀ r ∈ dropDupPlain (limparDf3 df), r.pac ≠ p := by
            intro r hr hrp
            have hr3 : r ∈ limparDf3 df := mem_dropPlainAux _ _ hr
            have hmem : r ∈ filterPac p (limparDf3 df) :=
              mem_filterPac.mpr ⟨hr3, hrp⟩
            rw [h3p] at hmem
            cases hmem
          rw [filterPac_eq_nil' hnil]
          rfl
        · have hallp : ∀ r ∈ limparDf3 df, r.pac = p := by
            obtain ⟨r0, hr0⟩ := List.exists_mem_of_ne_nil _ h3p
            obtain ⟨hr0m, hr0p⟩ := mem_filterPac.mp hr0
            intro r hr
            rw [numPacs_le_one_pac_eq (le_of_not_lt hm) r hr r0 hr0m, hr0p]
          rw [filterPac_eq_self hallp]
          apply filterPac_eq_self
          intro r hr
          exact hallp r (mem_dropPlainAux _ _ hr)

/-! The normalizer commutes with restriction to one subject. -/

theorem normGrupo_pac {g : List Row} {r : Row} (h : r ∈ normGrupo g) :
    ∃ a ∈ g, r.pac = a.pac := by
  unfold normGrupo at h
  simp only [List.mem_map] at h
  obtain ⟨a, ha, rfl⟩ := h
  exact ⟨a, ha, rfl⟩

theorem filterPac_map_of_pres (p : ℕ) (F : Row → Row)
    (hF : ∀ r, (F r).pac = r.pac) (l : List Row) :
    filterPac p (l.map F) = (filterPac p l).map F := by
  unfold filterPac
  rw [List.filter_map]
  congr 1
  apply List.filter_congr
  intro r _
  simp [Function.comp, hF]

theorem filterPac_normGrupo (p : ℕ) (g : List Row) :
    filterPac p (normGrupo g) = (filterPac p g).map (normGrupoF g) := by
  unfold normGrupo
  exact filterPac_map_of_pres p (normGrupoF g) (fun r => rfl) g

theorem filterPac_append (p : ℕ) (l₁ l₂ : List Row) :
    filterPac p (l₁ ++ l₂) = filterPac p l₁ ++ filterPac p l₂ := by
  unfold filterPac
  rw [List.filter_append]

theorem filterPac_idem (p : ℕ) (l : List Row) :
    filterPac p (filterPac p l) = filterPac p l :=
  filterPac_eq_self (fun r hr => (mem_filterPac.mp hr).2)

theorem filterPac_flatMap_normGrupo (p : ℕ) (df : List Row) :
    ∀ (ps : List ℕ), ps.Nodup →
      filterPac p (ps.flatMap (fun q => normGrupo (filterPac q df))) =
        if p ∈ ps then normGrupo (filterPac p df) else [] := by
  intro ps
  induction ps with
  | nil =>
    intro _
    rw [if_neg (List.not_mem_nil p)]
    rfl
  | cons q t ih =>
    intro hnd
    obtain ⟨hqt, hndt⟩ := List.nodup_cons.mp hnd
    rw [List.flatMap_cons, filterPac_append, ih hndt]
    by_cases hqp : q = p
    · subst hqp
      rw [if_neg hqt, if_pos (List.mem_cons_self q t), List.append_nil,
        filterPac_normGrupo, filterPac_idem]
      rfl
    · have h1 : filterPac p (normGrupo (filterPac q df)) = [] := by
        apply filterPac_eq_nil'
        intro r hr hrp
        obtain ⟨a, ha, hpa⟩ := normGrupo_pac hr
        rw [hpa] at hrp
        rw [(mem_filterPac.mp ha).2] at hrp
        exact hqp hrp
      rw [h1, List.nil_append]
      by_cases hpt : p ∈ t
      · rw [if_pos hpt, if_pos (List.mem_cons_of_mem _ hpt)]
      · rw [if_neg hpt, if_neg (by
          intro hc
          rcases List.mem_cons.mp hc with he | he
          · exact hqp he.symm
          · exact hpt he)]

theorem pacsSorted_nodup (l : List Row) : (pacsSorted l).Nodup :=
  ((List.perm_insertionSort _ _).nodup_iff).mpr (List.nodup_dedup _)

theorem mem_pacsSorted {p : ℕ} {l : List Row} :
    p ∈ pacsSorted l ↔ ∃ r ∈ l, r.pac = p := by
  unfold pacsSorted
  rw [(List.perm_insertionSort _ _).mem_iff, List.mem_dedup, List.mem_map]

theorem mem_normalizar {r : Row} {df : List Row}
    (h : r ∈ normalizar_coordenadas df) : ∃ a ∈ df, r.pac = a.pac := by
  unfold normalizar_coordenadas at h
  by_cases hemp : (!NORMALIZAR_COORDS || df.isEmpty) = true
  · rw [if_pos hemp] at h
    exact ⟨r, h, rfl⟩
  · rw [if_neg hemp] at h
    by_cases hm : 1 < numPacs df
    · rw [if_pos hm] at h
      simp only [List.mem_flatMap] at h
      obtain ⟨q, -, hq⟩ := h
      obtain ⟨a, ha, hpa⟩ := normGrupo_pac hq
      exact ⟨a, (mem_filterPac.mp ha).1, hpa⟩
    · rw [if_neg hm] at h
      obtain ⟨a, ha, hpa⟩ := normGrupo_pac h
      exact ⟨a, ha, hpa⟩

/-- The coordinate normalizer acts on each subject's rows exactly as it
acts on that subject's rows alone. -/
theorem normalizar_per_subject (df : List Row) (p : ℕ) :
    filterPac p (normalizar_coordenadas df) =
      normalizar_coordenadas (filterPac p df) := by
  by_cases hdf : df = []
  · subst hdf
    rfl
  · have hcond : ¬ ((!NORMALIZAR_COORDS || df.isEmpty) = true) := by
      simp [NORMALIZAR_COORDS, List.isEmpty_iff, hdf]
    by_cases hp : filterPac p df = []
    · rw [hp]
      have hR : normalizar_coordenadas [] = [] := rfl
      rw [hR]
      apply filterPac_eq_nil'
      intro r hr hrp
      obtain ⟨a, ha, hpa⟩ := mem_normalizar hr
      have hap : a.pac = p := by rw [← hpa, hrp]
      have hmem : a ∈ filterPac p df := mem_filterPac.mpr ⟨ha, hap⟩
      rw [hp] at hmem
      cases hmem
    · have hpsome : ∃ r ∈ df, r.pac = p := by
        obtain ⟨r0, hr0⟩ := List.exists_mem_of_ne_nil _ hp
        exact ⟨r0, (mem_filterPac.mp hr0).1, (mem_filterPac.mp hr0).2⟩
      have hcondR : ¬ ((!NORMALIZAR_COORDS || (filterPac p df).isEmpty) = true) := by
        simp [NORMALIZAR_COORDS, List.isEmpty_iff, hp]
      unfold normalizar_coordenadas
      rw [if_neg hcond, if_neg hcondR]
      have hleR : numPacs (filterPac p df) ≤ 1 := numPacs_filterPac_le_one p df
      rw [if_neg (by omega : ¬ 1 < numPacs (filterPac p df))]
      by_cases hm : 1 < numPacs df
      · rw [if_pos hm,
          filterPac_flatMap_normGrupo p df (pacsSorted df) (pacsSorted_nodup df),
          if_pos (mem_pacsSorted.mpr hpsome)]
      · rw [if_neg hm]
        have hallp : ∀ r ∈ df, r.pac = p := by
          obtain ⟨r0, hr0m, hr0p⟩ := hpsome
          intro r hr
          rw [numPacs_le_one_pac_eq (le_of_not_lt hm) r hr r0 hr0m, hr0p]
        rw [filterPac_eq_self hallp]
        apply filterPac_eq_self
        intro r hr
        obtain ⟨a, ha, hpa⟩ := normGrupo_pac hr
        rw [hpa]
        exact hallp a ha

/-- C8: the cleaning/outlier filter and the coordinate normalizer behave
identically for single- and multi-subject tables: for every input table
and every subject, restricting the output to that subject's rows equals
running the whole operation on that subject's rows alone. -/
theorem c8_per_subject_equivalence (df : List Row) (p : ℕ) :
    filterPac p (limpar_e_outliers df) = limpar_e_outliers (filterPac p df) ∧
      filterPac p (normalizar_coordenadas df) =
        normalizar_coordenadas (filterPac p df) :=
  ⟨limpar_per_subject df p, normalizar_per_subject df p⟩

end Trog2
